import Mathlib

/-!
# statuspages: the service registry and the request router

A shallow embedding of `server.go` and `html.go` of the Go package `statuspages`.

* Go strings are Lean `String`s (valid Unicode text).
* A Go `map` is an association list read with Go's indexing rules: a missing key
  reads as the zero value of the element type.
* A value of the interface `Service` is nil, or a non-nil value known by its identity
  (a pointer, as the services of the repository are). A value of a dynamic type that
  cannot be hashed is left out: `s.names[service]`, the first thing `AddService` and
  `RemoveService` do, panics on it before the registry is touched.
* `AddService`, `RemoveService` and `ServeHTTP` are first modelled as the functions they
  are when they run alone; the section on goroutines runs them as steps that take
  `s.mutex`, under any schedule.
-/

namespace StatusPages

/-! ## Go maps -/

/-- A Go `map[κ]ν` as an association list. -/
abbrev GoMap (κ ν : Type) := List (κ × ν)

namespace GoMap

variable {κ ν : Type} [DecidableEq κ]

/-- The entry stored under `k`, if any (`v, ok := m[k]`). -/
def get : GoMap κ ν → κ → Option ν
  | [], _ => none
  | (k', v) :: m, k => if k' = k then some v else get m k

/-- Go's `delete(m, k)`. -/
def delete (m : GoMap κ ν) (k : κ) : GoMap κ ν :=
  m.filter (fun e => decide (e.1 ≠ k))

/-- Go's `m[k] = v`. -/
def set (m : GoMap κ ν) (k : κ) (v : ν) : GoMap κ ν :=
  (k, v) :: m.delete k

end GoMap

/-! ## The registry (`server.go`) -/

/-- A value of the interface `Service`: the nil interface, or a non-nil value, known by
its identity. -/
inductive Service where
  | nil
  | ref (id : Nat)
deriving DecidableEq, Repr

/-- Go's `m[name]` on a `map[string]Service`: nil when `name` has no entry. -/
def owner (services : GoMap String Service) (name : String) : Service :=
  (services.get name).getD Service.nil

/-- The registry fields of `Server`, the ones guarded by `mutex`. -/
structure Server where
  names : GoMap Service String
  services : GoMap String Service
  orderedServices : List Service
deriving DecidableEq, Repr

namespace Server

/-- Go's `s.names[service]`: the empty string when `service` has no entry. -/
def nameOf (s : Server) (service : Service) : String :=
  (s.names.get service).getD ""

/-- Go's `s.services[name]`: nil when `name` has no entry, or a nil one. -/
def lookup (s : Server) (name : String) : Service :=
  owner s.services name

end Server

/-- Go's `name + fmt.Sprint(i)` for a non-negative `int`. -/
def suffixed (name : String) (i : Nat) : String :=
  name ++ toString i

/-! ### Decimal rendering is injective

The loop of `addService` has no bound; that it ends is a fact about the map, proved here
so that the loop can be defined as a total function. -/

/-- The number a list of decimal digit characters stands for. -/
def decimalValue (ds : List Char) : Nat :=
  ds.foldl (fun acc c => 10 * acc + (c.toNat - 48)) 0

theorem decimalFold_acc (ys : List Char) : ∀ a : Nat,
    ys.foldl (fun acc c => 10 * acc + (c.toNat - 48)) a
      = a * 10 ^ ys.length + ys.foldl (fun acc c => 10 * acc + (c.toNat - 48)) 0 := by
  induction ys with
  | nil => intro a; simp
  | cons y ys ih =>
    intro a
    simp only [List.foldl_cons, List.length_cons]
    rw [ih (10 * a + (y.toNat - 48)), ih (10 * 0 + (y.toNat - 48)), pow_succ]
    ring

theorem decimalValue_append (xs ys : List Char) :
    decimalValue (xs ++ ys) = decimalValue xs * 10 ^ ys.length + decimalValue ys := by
  unfold decimalValue
  rw [List.foldl_append, decimalFold_acc]

theorem digitChar_value (k : Nat) (hk : k < 10) : (Nat.digitChar k).toNat - 48 = k := by
  interval_cases k <;> rfl

theorem toDigitsCore_acc (fuel : Nat) : ∀ (n : Nat) (ds : List Char),
    Nat.toDigitsCore 10 fuel n ds = Nat.toDigitsCore 10 fuel n [] ++ ds := by
  induction fuel with
  | zero => intro n ds; simp [Nat.toDigitsCore]
  | succ fuel ih =>
    intro n ds
    simp only [Nat.toDigitsCore]
    split
    · simp
    · rw [ih (n / 10) (Nat.digitChar (n % 10) :: ds), ih (n / 10) [Nat.digitChar (n % 10)]]
      simp

theorem decimalValue_toDigitsCore (fuel : Nat) : ∀ n : Nat, n < fuel →
    decimalValue (Nat.toDigitsCore 10 fuel n []) = n := by
  induction fuel with
  | zero => intro n h; omega
  | succ fuel ih =>
    intro n h
    simp only [Nat.toDigitsCore]
    split
    · rename_i h0
      have hlt : n < 10 := by
        by_contra hc
        have : 1 ≤ n / 10 := (Nat.one_le_div_iff (by norm_num)).2 (by omega)
        omega
      simp only [decimalValue, List.foldl_cons, List.foldl_nil]
      rw [digitChar_value _ (Nat.mod_lt _ (by norm_num))]
      omega
    · rename_i h0
      rw [toDigitsCore_acc, decimalValue_append]
      have hdiv : n / 10 < fuel := by
        have : n / 10 < n := Nat.div_lt_self (by
          by_contra hc
          have : n = 0 := by omega
          subst this
          simp at h0) (by norm_num)
        omega
      rw [ih _ hdiv]
      simp only [decimalValue, List.foldl_cons, List.foldl_nil, List.length_singleton, pow_one]
      rw [digitChar_value _ (Nat.mod_lt _ (by norm_num))]
      omega

theorem decimalValue_repr (n : Nat) : decimalValue (toString n).data = n := by
  show decimalValue (Nat.repr n).data = n
  simp only [Nat.repr, Nat.toDigits, List.asString]
  exact decimalValue_toDigitsCore (n + 1) n (Nat.lt_succ_self n)

theorem suffixed_injective (name : String) : Function.Injective (suffixed name) := by
  intro a b h
  have hd : (suffixed name a).data = (suffixed name b).data := by rw [h]
  simp only [suffixed, String.data_append] at hd
  have := List.append_cancel_left hd
  have h2 := congrArg decimalValue this
  rwa [decimalValue_repr, decimalValue_repr] at h2

/-! ### The suffix search always finds a free name -/

theorem GoMap.mem_keys_of_get {κ ν : Type} [DecidableEq κ] (m : GoMap κ ν) (k : κ)
    (h : m.get k ≠ none) : k ∈ m.map Prod.fst := by
  induction m with
  | nil => simp [GoMap.get] at h
  | cons e m ih =>
    obtain ⟨k', v⟩ := e
    simp only [GoMap.get] at h
    by_cases hk : k' = k
    · simp [hk]
    · simp only [hk, if_false] at h
      simp [ih h]

/-- A map with `n` entries cannot own all of the `n + 1` names `name2`, `name3`, ... -/
theorem exists_free_suffix (services : GoMap String Service) (name : String) :
    ∃ j, 2 ≤ j ∧ j < 2 + (services.length + 1) ∧
      owner services (suffixed name j) = Service.nil := by
  by_contra hall
  push_neg at hall
  let l : List String := (List.range (services.length + 1)).map (fun t => suffixed name (t + 2))
  have hnd : l.Nodup := by
    refine (List.nodup_range _).map ?_
    intro a b hab
    have := suffixed_injective name hab
    omega
  have hsub : l ⊆ services.map Prod.fst := by
    intro x hx
    obtain ⟨t, ht, rfl⟩ := List.mem_map.1 hx
    have htl := List.mem_range.1 ht
    refine GoMap.mem_keys_of_get _ _ (fun hnone => hall (t + 2) (by omega) (by omega) ?_)
    simp [owner, hnone]
  have hlen := (hnd.subperm hsub).length_le
  simp [l] at hlen

/-- The loop `for i := 2; ; i++` of `addService`, started at `i`: the first
`suffixed name j`, `j ≥ i`, that no service owns. The loop has no bound of its own;
it ends because a free suffix lies ahead, less than `fuel` steps away. -/
def suffixLoop (services : GoMap String Service) (name : String) :
    (fuel i : Nat) →
    (∃ j, i ≤ j ∧ j < i + fuel ∧ owner services (suffixed name j) = Service.nil) → String
  | 0, _, h => absurd h (by rintro ⟨j, h1, h2, _⟩; omega)
  | fuel + 1, i, h =>
    if hfree : owner services (suffixed name i) = Service.nil then
      suffixed name i
    else
      suffixLoop services name fuel (i + 1) (by
        obtain ⟨j, h1, h2, h3⟩ := h
        have hne : j ≠ i := by
          rintro rfl
          exact hfree h3
        exact ⟨j, by omega, by omega, h3⟩)

/-- The first statement of `addService`: `if name == "" { name = "NoName" }`. -/
def defaultName (name : String) : String :=
  if name = "" then "NoName" else name

/-- AddService with mutex already locked. -/
def addService (s : Server) (name : String) (service : Service) : String × Server :=
  let name := defaultName name
  let suffixedName :=
    if s.lookup name ≠ Service.nil then
      suffixLoop s.services name (s.services.length + 1) 2 (exists_free_suffix s.services name)
    else name
  (suffixedName,
    { services := s.services.set suffixedName service
      names := s.names.set service suffixedName
      orderedServices := s.orderedServices ++ [service] })

/-- The name `addService` settles on; it does not depend on the service. -/
def assignedName (s : Server) (name : String) : String :=
  (addService s name Service.nil).1

/-- Add a new service on the status page; returns the possibly suffixed name. -/
def AddService (s : Server) (name : String) (service : Service) : String × Server :=
  let previousName := s.nameOf service
  if previousName ≠ "" then (previousName, s) else addService s name service

/-- The loop of `RemoveService` over `orderedServices`, at index `i` with `rest` still
to visit: at the first `item == service` the slice becomes
`append(orderedServices[:i], orderedServices[i+1:]...)`. -/
def removeOrdered (service : Service) (ordered : List Service) : Nat → List Service → List Service
  | _, [] => ordered
  | i, item :: rest =>
    if item = service then ordered.take i ++ ordered.drop (i + 1)
    else removeOrdered service ordered (i + 1) rest

/-- RemoveService removes a service from the status page. -/
def RemoveService (s : Server) (service : Service) : Server :=
  let name := s.nameOf service
  if name = "" then s
  else
    { services := s.services.delete name
      names := s.names.delete service
      orderedServices := removeOrdered service s.orderedServices 0 s.orderedServices }

/-- The registry of `NewServer()`: empty maps, then `AddService("Base", newBaseService())`;
`base` is the identity of the freshly allocated base service. -/
def NewServer (base : Nat) : Server :=
  (AddService { names := [], services := [], orderedServices := [] } "Base"
    (Service.ref base)).2

/-- One call on the registry. -/
inductive Call where
  | add (name : String) (service : Service)
  | remove (service : Service)
deriving DecidableEq, Repr

/-- The service a call is about. -/
def Call.service : Call → Service
  | .add _ service => service
  | .remove service => service

/-- The registry after one call. -/
def Call.apply (s : Server) : Call → Server
  | .add name service => (AddService s name service).2
  | .remove service => RemoveService s service

/-- The registry after a sequence of calls, first call first. -/
def runCalls (s : Server) (calls : List Call) : Server :=
  calls.foldl Call.apply s

/-- The three views of the registry agree: the two maps are inverse to each other, no
stored name is empty, and `orderedServices` lists the named services once each. Stated on
the entries of the maps; the nil interface is a key and a value like any other here. -/
structure Consistent (s : Server) : Prop where
  maps : ∀ n svc, s.services.get n = some svc ↔ s.names.get svc = some n
  named : ∀ svc, s.names.get svc ≠ some ""
  nodup : s.orderedServices.Nodup
  ordered : ∀ svc, svc ∈ s.orderedServices ↔ s.names.get svc ≠ none

/-- The nil interface has no name in the registry. -/
def NilFree (s : Server) : Prop :=
  s.names.get Service.nil = none

/-! ## Go standard library functions the handler calls

`html.EscapeString`, the escapers `html/template` puts around `{{.}}` in text and in a
URL query inside an attribute, and `strconv.Quote` (the verb `%q`), on valid UTF-8. -/

/-- The text of an `error` value, `err.Error()`. -/
abbrev Error := String

/-- Replace every character `c` of `s` by `f c`, left to right. -/
def replaceEach (f : Char → String) (s : String) : String :=
  ⟨s.data.flatMap (fun c => (f c).data)⟩

/-- The replacements of `html.EscapeString`. -/
def escapeRune (c : Char) : String :=
  if c = '&' then "&amp;"
  else if c = '\'' then "&#39;"
  else if c = '<' then "&lt;"
  else if c = '>' then "&gt;"
  else if c = '"' then "&#34;"
  else String.singleton c

/-- Go's `html.EscapeString`. -/
def EscapeString (s : String) : String :=
  replaceEach escapeRune s

/-- The table `htmlReplacementTable` of `html/template`. -/
def htmlReplacement (c : Char) : String :=
  if c = Char.ofNat 0 then "\uFFFD"
  else if c = '"' then "&#34;"
  else if c = '&' then "&amp;"
  else if c = '\'' then "&#39;"
  else if c = '+' then "&#43;"
  else if c = '<' then "&lt;"
  else if c = '>' then "&gt;"
  else String.singleton c

/-- The escaper `html/template` applies to a string `{{.}}` in HTML text. -/
def htmlEscaper (s : String) : String :=
  replaceEach htmlReplacement s

/-- The UTF-8 encoding of a character, as byte values. -/
def utf8Bytes (c : Char) : List Nat :=
  let v := c.toNat
  if v < 0x80 then [v]
  else if v < 0x800 then [0xC0 + v / 64, 0x80 + v % 64]
  else if v < 0x10000 then [0xE0 + v / 4096, 0x80 + v / 64 % 64, 0x80 + v % 64]
  else [0xF0 + v / 262144, 0x80 + v / 4096 % 64, 0x80 + v / 64 % 64, 0x80 + v % 64]

/-- The bytes `processURLOnto` copies unchanged when it does not normalise: letters,
digits, `-`, `.`, `_` and `~`. -/
def isUnreserved (b : Nat) : Bool :=
  (97 ≤ b && b ≤ 122) || (65 ≤ b && b ≤ 90) || (48 ≤ b && b ≤ 57)
    || b = 45 || b = 46 || b = 95 || b = 126

/-- One byte through `processURLOnto`: itself, or `%` and two lower-case hex digits. -/
def urlEscapeByte (b : Nat) : List Char :=
  if isUnreserved b then [Char.ofNat b]
  else ['%', Nat.digitChar (b / 16), Nat.digitChar (b % 16)]

/-- The escaper `html/template` applies to a string `{{.}}` in the query of a URL
attribute. The attribute escaper that runs after it finds nothing to replace: the
output holds unreserved bytes, `%` and hex digits only. -/
def urlEscaper (s : String) : String :=
  ⟨s.data.flatMap (fun c => (utf8Bytes c).flatMap urlEscapeByte)⟩

/-- Go's `strconv.IsPrint`: decided in the code up to U+00FF, by the Unicode tables
`table` above. -/
def IsPrint (table : Char → Bool) (c : Char) : Bool :=
  if c.toNat ≤ 0xFF then
    (0x20 ≤ c.toNat && c.toNat ≤ 0x7E) || (0xA1 ≤ c.toNat && c.toNat ≤ 0xFF && c.toNat ≠ 0xAD)
  else table c

/-- The last `n` hex digits of `v`, lower case. -/
def lowerHex (v : Nat) : Nat → List Char
  | 0 => []
  | n + 1 => lowerHex (v / 16) n ++ [Nat.digitChar (v % 16)]

/-- One rune through `appendEscapedRune` of `strconv`, for the double quote. -/
def quoteRune (table : Char → Bool) (c : Char) : String :=
  if c = '"' ∨ c = '\\' then ⟨['\\', c]⟩
  else if IsPrint table c then String.singleton c
  else if c.toNat = 7 then "\\a"
  else if c.toNat = 8 then "\\b"
  else if c.toNat = 12 then "\\f"
  else if c.toNat = 10 then "\\n"
  else if c.toNat = 13 then "\\r"
  else if c.toNat = 9 then "\\t"
  else if c.toNat = 11 then "\\v"
  else if c.toNat < 0x20 ∨ c.toNat = 0x7F then ⟨'\\' :: 'x' :: lowerHex c.toNat 2⟩
  else if c.toNat < 0x10000 then ⟨'\\' :: 'u' :: lowerHex c.toNat 4⟩
  else ⟨'\\' :: 'U' :: lowerHex c.toNat 8⟩

/-- Go's `strconv.Quote`, what `%q` prints for a string. -/
def Quote (table : Char → Bool) (s : String) : String :=
  "\"" ++ replaceEach (quoteRune table) s ++ "\""

/-! ## The templates (`html.go`) -/

/-- Output and error of `Begin.Execute(&sb, data)`: the action `{{.}}` stands in the
title and in a heading, both HTML text. -/
def Begin.Execute (data : String) : String × Option Error :=
  ("<!DOCTYPE html>\n<html>\n<head>\n\t<title>" ++ htmlEscaper data
    ++ " status page</title>\n\t<style>\n\t\t.expandable \x7b\n\t\t\tdisplay: none;\n\t\t\x7d\n"
    ++ "\t</style>\n</head>\n<body>\n\t<p><a href='./status'>Main status page</a></p>\n"
    ++ "    <h1>" ++ htmlEscaper data ++ " Status Page</h1>", none)

/-- Output and error of `serviceEntry.Execute(&sb, data)`: the first `{{.}}` stands in
the query of the link target, the second in the link text. -/
def serviceEntry.Execute (data : String) : String × Option Error :=
  ("<h1><a href=\"./status?service=" ++ urlEscaper data ++ "\">" ++ htmlEscaper data
    ++ "</a></h1>\n", none)

/-- The constant `End`. -/
def End : String :=
  "<script>\ndocument.getElementsByClassName(\"expandButton\").forEach(func(item) \x7b\n"
    ++ "\titem.addEventListener(\"click\", function () \x7b\n"
    ++ "\t\tvar content = this.nextElementSibling;\n"
    ++ "\t\tif (content.style.display === \"block\") \x7b\n"
    ++ "\t\t\tcontent.style.display = \"none\";\n"
    ++ "\t\t\x7d else \x7b\n"
    ++ "\t\t\tcontent.style.display = \"block\";\n"
    ++ "\t\t\x7d\n"
    ++ "\t\x7d);\n</script>\n</body>\n</html>\n"

/-! ## Requests and responses (`net/http`) -/

/-- The values of one key of `url.Values`; a key that is present has a first value. -/
structure Params where
  first : String
  rest : List String
deriving DecidableEq, Repr

/-- What `ServeHTTP` reads of a request. -/
structure Request where
  /-- The field `r.Method`. -/
  Method : String
  /-- The result of `r.URL.Query()["service"]`; `none` when the key is absent. -/
  queryService : Option Params
  /-- The result of `r.ParseForm()`; `none` is the nil error. -/
  parseForm : Option Error
  /-- The result of `r.FormValue("service")` once the form is parsed. -/
  formValue : String
deriving DecidableEq, Repr

/-- A `http.ResponseWriter`: the header map, and what has gone to the client. What
`net/http` adds to the header on its own account is left out: the `Content-Type` it
sniffs from the first bytes when the handler has set none. -/
structure ResponseWriter where
  /-- The map `w.Header()`. -/
  header : GoMap String String
  /-- The status code of the response, once the header is written. -/
  status : Option Nat
  /-- The handler's header map as it was when the status code was written. -/
  sent : GoMap String String
  /-- The bytes written. -/
  body : String
deriving DecidableEq, Repr

namespace ResponseWriter

/-- A writer nothing has been written to, as `httptest.NewRecorder()` returns. -/
def new : ResponseWriter :=
  { header := [], status := none, sent := [], body := "" }

/-- Go's `w.Header().Set(key, value)`. -/
def setHeader (w : ResponseWriter) (key value : String) : ResponseWriter :=
  { w with header := w.header.set key value }

/-- Go's `w.WriteHeader(code)`: a second call changes nothing. -/
def WriteHeader (w : ResponseWriter) (code : Nat) : ResponseWriter :=
  match w.status with
  | some _ => w
  | none => { w with status := some code, sent := w.header }

/-- Go's `w.Write(data)`: writes the header with status 200 first when none was written.
The error is nil. -/
def Write (w : ResponseWriter) (data : String) : ResponseWriter × Option Error :=
  ({ (w.WriteHeader 200) with body := (w.WriteHeader 200).body ++ data }, none)

end ResponseWriter

/-! ## Services -/

/-- What `baseService` reads of its process. -/
structure Process where
  /-- The value `os.Args[0]`. -/
  processName : String
  /-- The value `os.Args`. -/
  commandLine : List String
  /-- The value `os.Environ()`. -/
  environ : List String
  /-- The current time, in the layout `15:04:05 02/01/2006`. -/
  now : String
  /-- The start time, in the same layout. -/
  startTime : String
  /-- The result of `humanize.RelTime(startTime, now, "ago", "in the future")`. -/
  startTimeAgo : String

/-- The method `(*baseService).MainPageEntry`. -/
def baseService.MainPageEntry (p : Process) (_name : String) : String × Option Error :=
  ("\n<ul>\n\t<li>Process name: " ++ htmlEscaper p.processName
    ++ "</li>\n\t<li>Current time: " ++ htmlEscaper p.now
    ++ "</li>\n\t<li>Start time: " ++ htmlEscaper p.startTime ++ ", "
    ++ htmlEscaper p.startTimeAgo ++ "</li>\n</ul>\n", none)

/-- Output of `servicePageTemplate.Execute`. -/
def servicePageTemplate.Execute (p : Process) : String × Option Error :=
  ("\n<h1>Command line:</h1>\n<code>\n\t"
    ++ String.join (p.commandLine.map (fun a => htmlEscaper a ++ " "))
    ++ "\n</code>\n\n<h1>Environment:</h1>\n<ul>\n\t"
    ++ String.join (p.environ.map (fun e => "\n\t\t<li>" ++ htmlEscaper e ++ "</li>\n\t"))
    ++ "\n</ul>\n", none)

/-- The method `(*baseService).ServicePage`. -/
def baseService.ServicePage (p : Process) (name : String) (w : ResponseWriter)
    (_r : Request) : ResponseWriter × Option Error :=
  match Begin.Execute name with
  | (_, some err) => (w, some err)
  | (sb, none) =>
    match servicePageTemplate.Execute p with
    | (_, some err) => (w, some err)
    | (page, none) =>
      (w.setHeader "Content-Type" "text/html; charset=utf-8").Write (sb ++ page ++ End)

/-- The method `(*MockService).MainPageEntry` of `server_test.go`. -/
def MockService.MainPageEntry (name : String) : String × Option Error :=
  (name ++ " service", none)

/-- The method `(*MockService).ServicePage` of `server_test.go`. -/
def MockService.ServicePage (name : String) (w : ResponseWriter) (_r : Request) :
    ResponseWriter × Option Error :=
  w.Write (name ++ " service status page")

/-- What `ServeHTTP` does not own: the two methods of every non-nil service, and the
Unicode tables behind `%q`. The methods are never asked about the nil interface. -/
structure Env where
  /-- The tables of `strconv.IsPrint` above U+00FF. -/
  table : Char → Bool
  /-- The method `service.MainPageEntry(name)`: a fragment and an error. -/
  MainPageEntry : Service → String → String × Option Error
  /-- The method `service.ServicePage(name, w, r)`: the writer afterwards and an error. -/
  ServicePage : Service → String → ResponseWriter → Request → ResponseWriter × Option Error

/-- A process for examples. -/
def sampleProcess : Process :=
  { processName := "/statuspages.test"
    commandLine := ["/statuspages.test"]
    environ := ["PATH=/bin"]
    now := "00:00:10 01/01/2020"
    startTime := "00:00:00 01/01/2020"
    startTimeAgo := "10 seconds ago" }

/-- The setting of `server_test.go`: service 0 is the base service of `NewServer`, every
other service is a `MockService`. The table counts every character above U+00FF as
printable; it is read only for such characters. -/
def testEnv : Env :=
  { table := fun _ => true
    MainPageEntry := fun service name =>
      if service = Service.ref 0 then baseService.MainPageEntry sampleProcess name
      else MockService.MainPageEntry name
    ServicePage := fun service name w r =>
      if service = Service.ref 0 then baseService.ServicePage sampleProcess name w r
      else MockService.ServicePage name w r }

/-! ## The handler (`Server.ServeHTTP`) -/

/-- What `ServeHTTP` does that another goroutine or a service can see. -/
inductive Event where
  /-- The call `s.mutex.RLock()`. -/
  | rlock
  /-- The call `s.mutex.RUnlock()`. -/
  | runlock
  /-- The call `service.MainPageEntry(name)`. -/
  | mainPageEntry (service : Service) (name : String)
  /-- The call `service.ServicePage(name, w, r)`. -/
  | servicePage (service : Service) (name : String)
  /-- A run-time panic, of a method call on the nil interface. The deferred calls still
  run; `net/http` then recovers the panic and drops the connection. -/
  | panic
deriving DecidableEq, Repr

/-- How the loop over `orderedServices` ends before its last service. -/
inductive Abort where
  /-- A `MainPageEntry` returned this error, and the handler returns. -/
  | error (err : Error)
  /-- The service is the nil interface, and the call of its method panics. -/
  | panic
deriving DecidableEq, Repr

/-- The `switch r.Method`: the requested service name, and `err`. -/
def requestedService (r : Request) : String × Option Error :=
  if r.Method = "GET" then
    match r.queryService with
    | some params => (params.first, none)
    | none => ("", none)
  else if r.Method = "POST" then
    match r.parseForm with
    | none => (r.formValue, none)
    | some err => ("", some err)
  else ("", none)

/-- The loop `for _, service = range s.orderedServices` over the services still to
visit: the string builder, how the loop ended, and the calls made. -/
def mainPageLoop (env : Env) (s : Server) :
    List Service → String → List Event → String × Option Abort × List Event
  | [], sb, trace => (sb, none, trace)
  | service :: rest, sb, trace =>
    let name := s.nameOf service
    let sb := sb ++ (serviceEntry.Execute name).1
    if service = Service.nil then (sb, some Abort.panic, trace ++ [Event.panic])
    else
      match env.MainPageEntry service name with
      | (_, some err) =>
        (sb, some (Abort.error err), trace ++ [Event.mainPageEntry service name])
      | (html, none) =>
        mainPageLoop env s rest (sb ++ html) (trace ++ [Event.mainPageEntry service name])

/-- The deferred function of `ServeHTTP` that reports `err`. -/
def reportError (w : ResponseWriter) : Option Error → ResponseWriter
  | none => w
  | some err =>
    (((w.setHeader "Content-Type" "text/html; charset=utf-8").WriteHeader 500).Write
      (EscapeString err)).1

/-- The body of `ServeHTTP` between the two deferred calls: the writer, the `err` the
deferred function finds, and the calls made. The `err` of `requestedService` is
overwritten on every path; at a panic in the loop `err` is nil. -/
def serve (env : Env) (s : Server) (w : ResponseWriter) (r : Request) :
    ResponseWriter × Option Error × List Event :=
  let serviceName := (requestedService r).1
  if serviceName ≠ "" then
    if s.lookup serviceName = Service.nil then
      (w, some ("unknown service name " ++ Quote env.table serviceName), [])
    else
      ((env.ServicePage (s.lookup serviceName) serviceName w r).1,
        (env.ServicePage (s.lookup serviceName) serviceName w r).2,
        [Event.servicePage (s.lookup serviceName) serviceName])
  else
    let w := w.setHeader "Content-Type" "text/html; charset=utf-8"
    match Begin.Execute "Main" with
    | (_, some err) => (w, some err, [])
    | (sb, none) =>
      match mainPageLoop env s s.orderedServices sb [] with
      | (_, some (Abort.error err), trace) => (w, some err, trace)
      | (_, some Abort.panic, trace) => (w, none, trace)
      | (sb, none, trace) => ((w.Write (sb ++ End)).1, none, trace)

/-- ServeHTTP implements http.Handler interface: the response, and the trace of the
call from `RLock` to the deferred `RUnlock`. -/
def ServeHTTP (env : Env) (s : Server) (w : ResponseWriter) (r : Request) :
    ResponseWriter × List Event :=
  (reportError (serve env s w r).1 (serve env s w r).2.1,
    [Event.rlock] ++ (serve env s w r).2.2 ++ [Event.runlock])

/-- The text the index page holds between the page shell and `End`: for each service in
turn its index entry, then the fragment its `MainPageEntry` returns, unescaped. -/
def indexEntries (env : Env) (s : Server) : List Service → String
  | [] => ""
  | service :: rest =>
    (serviceEntry.Execute (s.nameOf service)).1
      ++ (env.MainPageEntry service (s.nameOf service)).1 ++ indexEntries env s rest

/-- The link of the index entry of the service named `n`. -/
def indexLink (n : String) : String :=
  "<a href=\"./status?service=" ++ urlEscaper n ++ "\">" ++ htmlEscaper n ++ "</a>"

/-- A GET request for `/status` with the given values of the parameter `service`. -/
def getRequest (service : Option Params) : Request :=
  { Method := "GET", queryService := service, parseForm := none, formValue := "" }

/-- A POST request whose form does not parse: `ParseForm` returns an error. -/
def badFormRequest : Request :=
  { Method := "POST", queryService := none,
    parseForm := some "invalid URL escape \"%zz\"", formValue := "" }

/-- The setting `testEnv`, but the `MainPageEntry` of service 2 returns an error. -/
def brokenEnv : Env :=
  { testEnv with
    MainPageEntry := fun service name =>
      if service = Service.ref 2 then ("", some "service <2> is down")
      else testEnv.MainPageEntry service name }

/-! ## The readers of escaped text

What a browser and a server do with the two escaped forms of a name: they are the
measure of the escapers above, and no part of the handler. -/

/-- The value of a hex digit. -/
def hexValue (c : Char) : Option Nat :=
  if 48 ≤ c.toNat ∧ c.toNat ≤ 57 then some (c.toNat - 48)
  else if 97 ≤ c.toNat ∧ c.toNat ≤ 102 then some (c.toNat - 87)
  else if 65 ≤ c.toNat ∧ c.toNat ≤ 70 then some (c.toNat - 55)
  else none

/-- The byte that two hex digits at the head of a text stand for. -/
def readHexPair : List Char → Option Nat
  | h :: l :: _ =>
    match hexValue h, hexValue l with
    | some a, some b => some (16 * a + b)
    | _, _ => none
  | _ => none

/-- The bytes a query value stands for, as `url.QueryUnescape` reads it: `%` and two hex
digits are one byte, `+` is a space, any other ASCII character is itself. A character
outside ASCII cannot stand in a query. The first `skip` characters are hex digits
already read. -/
def percentDecode : Nat → List Char → Option (List Nat)
  | _, [] => some []
  | skip + 1, _ :: rest => percentDecode skip rest
  | 0, c :: rest =>
    if c = '%' then
      match readHexPair rest with
      | some b => (percentDecode 2 rest).map (fun bytes => b :: bytes)
      | none => none
    else if c = '+' then (percentDecode 0 rest).map (fun bytes => 32 :: bytes)
    else if c.toNat < 128 then (percentDecode 0 rest).map (fun bytes => c.toNat :: bytes)
    else none

/-- The character whose UTF-8 encoding starts with the byte `b0` and goes on with the
first bytes of `rest`, and how many bytes of `rest` it takes. -/
def utf8DecodeChar (b0 : Nat) (rest : List Nat) : Option (Char × Nat) :=
  if b0 < 0x80 then some (Char.ofNat b0, 0)
  else if b0 < 0xE0 then
    match rest with
    | b1 :: _ => some (Char.ofNat ((b0 - 0xC0) * 64 + (b1 - 0x80)), 1)
    | _ => none
  else if b0 < 0xF0 then
    match rest with
    | b1 :: b2 :: _ =>
      some (Char.ofNat ((b0 - 0xE0) * 4096 + (b1 - 0x80) * 64 + (b2 - 0x80)), 2)
    | _ => none
  else
    match rest with
    | b1 :: b2 :: b3 :: _ =>
      some (Char.ofNat ((b0 - 0xF0) * 262144 + (b1 - 0x80) * 4096 + (b2 - 0x80) * 64
        + (b3 - 0x80)), 3)
    | _ => none

/-- The characters a sequence of bytes encodes in UTF-8. The first `skip` bytes belong
to a character already read. -/
def utf8Decode : Nat → List Nat → Option (List Char)
  | _, [] => some []
  | skip + 1, _ :: rest => utf8Decode skip rest
  | 0, b0 :: rest =>
    match utf8DecodeChar b0 rest with
    | some (c, skip) => (utf8Decode skip rest).map (fun cs => c :: cs)
    | none => none

/-- The string a query value stands for: Go's `url.QueryUnescape`. -/
def queryUnescape (s : String) : Option String :=
  ((percentDecode 0 s.data).bind (utf8Decode 0)).map String.mk

/-- The character reference of `html/template` that stands right after an `&`: the
character it names, and how many characters the reference takes after the `&`. -/
def readReference : List Char → Option (Char × Nat)
  | 'a' :: 'm' :: 'p' :: ';' :: _ => some ('&', 4)
  | '#' :: '3' :: '4' :: ';' :: _ => some ('"', 4)
  | '#' :: '3' :: '9' :: ';' :: _ => some ('\'', 4)
  | '#' :: '4' :: '3' :: ';' :: _ => some ('+', 4)
  | 'l' :: 't' :: ';' :: _ => some ('<', 3)
  | 'g' :: 't' :: ';' :: _ => some ('>', 3)
  | _ => none

/-- The text a browser shows for HTML text that uses the character references of
`html/template`: each reference is read as its character. The first `skip` characters
are the rest of a reference already read. -/
def unescapeEntities : Nat → List Char → List Char
  | _, [] => []
  | skip + 1, _ :: rest => unescapeEntities skip rest
  | 0, c :: rest =>
    if c = '&' then
      match readReference rest with
      | some (ch, skip) => ch :: unescapeEntities skip rest
      | none => '&' :: unescapeEntities 0 rest
    else c :: unescapeEntities 0 rest

/-- Whether a character may stand in a query value as it is, or is part of a `%XX`. -/
def isQueryChar (c : Char) : Bool :=
  c.isAlphanum || c = '-' || c = '.' || c = '_' || c = '~' || c = '%'

/-! ## Goroutines and `s.mutex`

`ServeHTTP` runs in one goroutine, `AddService` or `RemoveService` in another; each takes
`s.mutex` as the code does, and a scheduler picks who moves next. The call of
`ServicePage` is a place where the handler stands while the service runs, for as many
moves as the service takes. -/

/-- The state of `s.mutex`, a `sync.RWMutex`: the read locks held, and whether the write
lock is held. -/
structure RWMutex where
  readers : Nat
  writer : Bool
deriving DecidableEq, Repr

/-- Where the goroutine that runs `ServeHTTP(w, r)` stands. -/
inductive Handler where
  /-- Before `s.mutex.RLock()`. -/
  | start
  /-- After `RLock` and the two `defer` statements, before the body. -/
  | locked
  /-- Inside `service.ServicePage(serviceName, w, r)`, which has not returned. -/
  | inServicePage (service : Service) (name : String)
  /-- The body has ended with this writer and `err`; the deferred report comes next. -/
  | returning (w : ResponseWriter) (err : Option Error)
  /-- The deferred report has run; the deferred `s.mutex.RUnlock()` comes next. -/
  | unlocking (w : ResponseWriter)
  /-- The handler has returned. -/
  | done (w : ResponseWriter)
deriving DecidableEq, Repr

/-- Where the goroutine that runs `AddService` or `RemoveService` stands. -/
inductive Mutator where
  /-- Before `s.mutex.Lock()`. -/
  | start (call : Call)
  /-- After `Lock`, before the body and the deferred `Unlock`. -/
  | locked (call : Call)
  /-- The call has returned. -/
  | done
deriving DecidableEq, Repr

/-- The server and the two goroutines. -/
structure System where
  registry : Server
  mutex : RWMutex
  handler : Handler
  mutator : Mutator
deriving DecidableEq, Repr

/-- What the scheduler, or the service, does next. -/
inductive Move where
  /-- The handler goroutine takes its next step. -/
  | handler
  /-- The `ServicePage` that was called goes on running. -/
  | servicePageRuns
  /-- The `ServicePage` that was called returns. -/
  | servicePageReturns
  /-- The goroutine of `AddService` or `RemoveService` takes its next step. -/
  | mutator
deriving DecidableEq, Repr

/-- Whether the handler holds a read lock where it stands. -/
def Handler.holdsReadLock : Handler → Bool
  | .start => false
  | .locked => true
  | .inServicePage _ _ => true
  | .returning _ _ => true
  | .unlocking _ => true
  | .done _ => false

/-- One step of the handler goroutine: `none` when it cannot move (`RLock` waits while
the write lock is held; inside `ServicePage` the handler waits for the service). The
body runs in one step up to the call of `ServicePage`, or to its end on the other paths.
Go's `RLock` also waits while a `Lock` is waiting; leaving that out only adds schedules. -/
def stepHandler (env : Env) (w : ResponseWriter) (r : Request) (st : System) : Option System :=
  match st.handler with
  | .start =>
    if st.mutex.writer then none
    else some { st with mutex := { st.mutex with readers := st.mutex.readers + 1 }
                        handler := .locked }
  | .locked =>
    if (requestedService r).1 ≠ "" ∧ st.registry.lookup (requestedService r).1 ≠ Service.nil then
      some { st with handler := .inServicePage (st.registry.lookup (requestedService r).1)
                        (requestedService r).1 }
    else
      some { st with handler := .returning (serve env st.registry w r).1
                        (serve env st.registry w r).2.1 }
  | .inServicePage _ _ => none
  | .returning w' err => some { st with handler := .unlocking (reportError w' err) }
  | .unlocking w' =>
    some { st with mutex := { st.mutex with readers := st.mutex.readers - 1 }
                   handler := .done w' }
  | .done _ => none

/-- One step of the goroutine of `AddService` or `RemoveService`: `none` when it cannot
move (`Lock` waits while a read lock or the write lock is held). The body and the
deferred `Unlock` are one step. -/
def stepMutator (st : System) : Option System :=
  match st.mutator with
  | .start call =>
    if st.mutex.readers = 0 ∧ st.mutex.writer = false then
      some { st with mutex := { st.mutex with writer := true }, mutator := .locked call }
    else none
  | .locked call =>
    some { st with registry := call.apply st.registry
                   mutex := { st.mutex with writer := false }
                   mutator := .done }
  | .done => none

/-- One move of the system; `none` when the move cannot be made in this state. -/
def step (env : Env) (w : ResponseWriter) (r : Request) (st : System) : Move → Option System
  | .handler => stepHandler env w r st
  | .servicePageRuns =>
    match st.handler with
    | .inServicePage _ _ => some st
    | _ => none
  | .servicePageReturns =>
    match st.handler with
    | .inServicePage service name =>
      some { st with handler := .returning (env.ServicePage service name w r).1
                        (env.ServicePage service name w r).2 }
    | _ => none
  | .mutator => stepMutator st

/-- The system after a schedule; a move that cannot be made leaves the state as it is. -/
def run (env : Env) (w : ResponseWriter) (r : Request) (st : System) (moves : List Move) :
    System :=
  moves.foldl (fun st m => (step env w r st m).getD st) st

/-- The system before either goroutine has moved. -/
def initial (s : Server) (call : Call) : System :=
  { registry := s, mutex := { readers := 0, writer := false }, handler := .start,
    mutator := .start call }

/-- The lock discipline: the mutex counts the read lock of the handler exactly, the write
lock is held exactly when the other goroutine stands after `Lock`, and never both. -/
structure LockInvariant (st : System) : Prop where
  readers : st.mutex.readers = if st.handler.holdsReadLock then 1 else 0
  writer : st.mutex.writer = true ↔ ∃ call, st.mutator = .locked call
  exclusive : ¬ (st.handler.holdsReadLock = true ∧ st.mutex.writer = true)

/-! ## Lemmas on Go maps -/

namespace GoMap

variable {κ ν : Type} [DecidableEq κ]

theorem get_delete (m : GoMap κ ν) (k k' : κ) :
    (m.delete k).get k' = if k = k' then none else m.get k' := by
  induction m with
  | nil => simp [delete, get]
  | cons e m ih =>
    obtain ⟨k0, v⟩ := e
    simp only [delete] at ih
    by_cases h0 : k0 = k
    · subst h0
      simp only [delete, List.filter_cons, ne_eq, not_true_eq_false, decide_False,
        Bool.false_eq_true, if_false, get]
      rw [ih]
      by_cases h1 : k0 = k' <;> simp [h1]
    · simp only [delete, List.filter_cons, ne_eq, h0, not_false_eq_true, decide_True, if_true,
        get]
      rw [ih]
      by_cases h1 : k0 = k'
      · subst h1
        simp [Ne.symm h0]
      · simp [h1]

theorem get_set (m : GoMap κ ν) (k k' : κ) (v : ν) :
    (m.set k v).get k' = if k = k' then some v else m.get k' := by
  simp only [set, get]
  by_cases h : k = k'
  · simp [h]
  · simp [h, get_delete]

theorem delete_of_get_none (m : GoMap κ ν) (k : κ) (h : m.get k = none) : m.delete k = m := by
  induction m with
  | nil => rfl
  | cons e m ih =>
    obtain ⟨k0, v⟩ := e
    simp only [get] at h
    by_cases h0 : k0 = k
    · simp [h0] at h
    · simp only [h0, if_false] at h
      simp only [delete] at ih
      simp only [delete, List.filter_cons, ne_eq, h0, not_false_eq_true, decide_True, if_true]
      rw [ih h]

end GoMap

/-! ## Lemmas on the registry operations -/

theorem removeOrdered_eq_erase (service : Service) : ∀ (rest pre : List Service),
    removeOrdered service (pre ++ rest) pre.length rest = pre ++ rest.erase service := by
  intro rest
  induction rest with
  | nil => intro pre; simp [removeOrdered]
  | cons item rest ih =>
    intro pre
    by_cases h : item = service
    · subst h
      simp [removeOrdered]
    · have := ih (pre ++ [item])
      simp only [List.append_assoc, List.singleton_append, List.length_append,
        List.length_singleton] at this
      simp only [removeOrdered, h, if_false, this]
      rw [List.erase_cons_tail (by simpa using h)]

theorem removeOrdered_erase (service : Service) (ordered : List Service) :
    removeOrdered service ordered 0 ordered = ordered.erase service := by
  simpa using removeOrdered_eq_erase service ordered []

theorem defaultName_ne_empty (name : String) : defaultName name ≠ "" := by
  unfold defaultName
  split
  · decide
  · assumption

theorem suffixed_ne_empty (name : String) (i : Nat) (h : name ≠ "") : suffixed name i ≠ "" := by
  intro hc
  have hd := congrArg String.data hc
  simp only [suffixed, String.data_append] at hd
  have : name.data = [] := (List.append_eq_nil.1 hd).1
  exact h (String.ext this)

/-- What the suffix loop returns: the first free suffix at or after `i`. -/
theorem suffixLoop_spec (services : GoMap String Service) (name : String) :
    ∀ (fuel i : Nat)
      (h : ∃ j, i ≤ j ∧ j < i + fuel ∧ owner services (suffixed name j) = Service.nil),
      ∃ k, i ≤ k ∧ suffixLoop services name fuel i h = suffixed name k ∧
        owner services (suffixed name k) = Service.nil ∧
        ∀ j, i ≤ j → j < k → owner services (suffixed name j) ≠ Service.nil := by
  intro fuel
  induction fuel with
  | zero =>
    intro i h
    obtain ⟨j, h1, h2, _⟩ := h
    omega
  | succ fuel ih =>
    intro i h
    by_cases hfree : owner services (suffixed name i) = Service.nil
    · refine ⟨i, le_refl _, ?_, hfree, ?_⟩
      · simp [suffixLoop, hfree]
      · intro j h1 h2
        omega
    · have hnext : ∃ j, i + 1 ≤ j ∧ j < i + 1 + fuel ∧
          owner services (suffixed name j) = Service.nil := by
        obtain ⟨j, h1, h2, h3⟩ := h
        have hne : j ≠ i := by
          rintro rfl
          exact hfree h3
        exact ⟨j, by omega, by omega, h3⟩
      obtain ⟨k, hk1, hk2, hk3, hk4⟩ := ih (i + 1) hnext
      refine ⟨k, by omega, ?_, hk3, ?_⟩
      · simp only [suffixLoop, hfree, dite_false]
        exact hk2
      · intro j h1 h2
        by_cases hj : j = i
        · subst hj
          exact hfree
        · exact hk4 j (by omega) h2

theorem addService_fst (s : Server) (name : String) (service : Service) :
    (addService s name service).1 = assignedName s name := rfl

theorem addService_snd (s : Server) (name : String) (service : Service) :
    (addService s name service).2 =
      { services := s.services.set (assignedName s name) service
        names := s.names.set service (assignedName s name)
        orderedServices := s.orderedServices ++ [service] } := rfl

theorem assignedName_free (s : Server) (name : String) :
    s.lookup (assignedName s name) = Service.nil := by
  unfold assignedName addService
  simp only
  split
  · obtain ⟨k, _, hk, hfree, _⟩ := suffixLoop_spec s.services (defaultName name)
      (s.services.length + 1) 2 (exists_free_suffix s.services (defaultName name))
    rw [hk]
    exact hfree
  · rename_i h
    simpa using h

theorem owner_set (m : GoMap String Service) (k k' : String) (v : Service) :
    owner (m.set k v) k' = if k = k' then v else owner m k' := by
  simp only [owner, GoMap.get_set]
  split <;> rfl

theorem owner_delete (m : GoMap String Service) (k k' : String) :
    owner (m.delete k) k' = if k = k' then Service.nil else owner m k' := by
  simp only [owner, GoMap.get_delete]
  split <;> rfl

theorem owner_of_get {m : GoMap String Service} {k : String} {v : Service}
    (h : m.get k = some v) : owner m k = v := by
  simp [owner, h]

theorem get_of_owner {m : GoMap String Service} {k : String} {v : Service}
    (h : owner m k = v) (hv : v ≠ Service.nil) : m.get k = some v := by
  unfold owner at h
  cases hg : m.get k with
  | none =>
    rw [hg] at h
    exact absurd h.symm hv
  | some x =>
    rw [hg] at h
    simpa using h

theorem assignedName_ne_empty (s : Server) (name : String) : assignedName s name ≠ "" := by
  unfold assignedName addService
  simp only
  split
  · obtain ⟨k, _, hk, _, _⟩ := suffixLoop_spec s.services (defaultName name)
      (s.services.length + 1) 2 (exists_free_suffix s.services (defaultName name))
    rw [hk]
    exact suffixed_ne_empty _ _ (defaultName_ne_empty name)
  · exact defaultName_ne_empty name

/-! ## The registry invariant is preserved -/

theorem Consistent.nameOf_eq_empty_iff {s : Server} (hc : Consistent s) (svc : Service) :
    s.nameOf svc = "" ↔ s.names.get svc = none := by
  unfold Server.nameOf
  cases h : s.names.get svc with
  | none => simp
  | some a =>
    have := hc.named svc
    rw [h] at this
    simp only [Option.getD_some, reduceCtorEq, iff_false]
    intro ha
    exact this (by rw [ha])

theorem Consistent.nameOf_of_get {s : Server} {svc : Service} {a : String}
    (h : s.names.get svc = some a) : s.nameOf svc = a := by
  simp [Server.nameOf, h]

theorem consistent_empty : Consistent { names := [], services := [], orderedServices := [] } where
  maps := by intro n svc; simp [GoMap.get]
  named := by intro svc; simp [GoMap.get]
  nodup := List.nodup_nil
  ordered := by intro svc; simp [GoMap.get]

theorem Consistent.get_eq_none_of_lookup {s : Server} (hc : Consistent s) (hnil : NilFree s)
    {n : String} (h : s.lookup n = Service.nil) : s.services.get n = none := by
  cases hg : s.services.get n with
  | none => rfl
  | some x =>
    have hx : x = Service.nil := by
      simpa [Server.lookup, owner, hg] using h
    subst hx
    have := (hc.maps n Service.nil).1 hg
    rw [hnil] at this
    exact absurd this (by simp)

theorem consistent_addService {s : Server} (hc : Consistent s) (hnil : NilFree s)
    (name : String) (svc : Service) (hnew : s.names.get svc = none) :
    Consistent (addService s name svc).2 := by
  have hfree := hc.get_eq_none_of_lookup hnil (assignedName_free s name)
  have hne := assignedName_ne_empty s name
  rw [addService_snd]
  refine ⟨?_, ?_, ?_, ?_⟩
  · intro n x
    simp only [GoMap.get_set]
    by_cases h1 : assignedName s name = n <;> by_cases h2 : svc = x
    · simp [h1, h2]
    · subst h1
      simp only [if_true, h2, if_false, Option.some.injEq]
      constructor
      · intro h
        first
          | exact absurd h h2
          | exact False.elim h
      · intro h
        have := (hc.maps _ _).2 h
        rw [hfree] at this
        exact absurd this (by simp)
    · subst h2
      simp only [h1, if_false, if_true, Option.some.injEq, iff_false]
      intro h
      have := (hc.maps _ _).1 h
      rw [hnew] at this
      exact absurd this (by simp)
    · simp only [h1, h2, if_false]
      exact hc.maps n x
  · intro x
    simp only [GoMap.get_set]
    by_cases h2 : svc = x
    · simp only [h2, if_true, ne_eq, Option.some.injEq]
      exact hne
    · simp only [h2, if_false]
      exact hc.named x
  · refine List.Nodup.append hc.nodup (List.nodup_singleton _) ?_
    intro x hx hx'
    have hxs : x = svc := by simpa using hx'
    subst hxs
    exact (hc.ordered x).1 hx hnew
  · intro x
    simp only [GoMap.get_set, List.mem_append, List.mem_singleton]
    by_cases h2 : svc = x
    · subst h2
      simp
    · simp only [h2, if_false]
      rw [hc.ordered x]
      constructor
      · rintro (h | h)
        · exact h
        · exact absurd h.symm h2
      · intro h
        exact Or.inl h

theorem consistent_AddService {s : Server} (hc : Consistent s) (hnil : NilFree s)
    (name : String) (svc : Service) : Consistent (AddService s name svc).2 := by
  unfold AddService
  simp only
  split
  · exact hc
  · rename_i h
    have h' : s.nameOf svc = "" := by simpa using h
    exact consistent_addService hc hnil name svc ((hc.nameOf_eq_empty_iff svc).1 h')

theorem nilFree_AddService {s : Server} (hnil : NilFree s) (name : String) (svc : Service)
    (hsvc : svc ≠ Service.nil) : NilFree (AddService s name svc).2 := by
  unfold AddService
  simp only
  split
  · exact hnil
  · rw [addService_snd]
    simp only [NilFree, GoMap.get_set, hsvc, if_false]
    exact hnil

theorem nilFree_RemoveService {s : Server} (hnil : NilFree s) (svc : Service) :
    NilFree (RemoveService s svc) := by
  unfold RemoveService
  simp only
  split
  · exact hnil
  · simp only [NilFree, GoMap.get_delete]
    split
    · rfl
    · exact hnil

theorem RemoveService_of_registered (s : Server) (svc : Service) (h : s.nameOf svc ≠ "") :
    RemoveService s svc =
      { services := s.services.delete (s.nameOf svc)
        names := s.names.delete svc
        orderedServices := s.orderedServices.erase svc } := by
  simp only [RemoveService, h, if_false, removeOrdered_erase]

theorem RemoveService_of_unregistered (s : Server) (svc : Service) (h : s.nameOf svc = "") :
    RemoveService s svc = s := by
  simp only [RemoveService, h, if_true]

theorem consistent_RemoveService {s : Server} (hc : Consistent s) (svc : Service) :
    Consistent (RemoveService s svc) := by
  by_cases hreg : s.nameOf svc = ""
  · rw [RemoveService_of_unregistered s svc hreg]
    exact hc
  rw [RemoveService_of_registered s svc hreg]
  have hget : s.names.get svc = some (s.nameOf svc) := by
    cases h : s.names.get svc with
    | none => exact absurd ((hc.nameOf_eq_empty_iff svc).2 h) hreg
    | some a => rw [Consistent.nameOf_of_get h]
  have hown : s.services.get (s.nameOf svc) = some svc := (hc.maps _ _).2 hget
  refine ⟨?_, ?_, ?_, ?_⟩
  · intro n x
    simp only [GoMap.get_delete]
    by_cases h1 : s.nameOf svc = n <;> by_cases h2 : svc = x
    · rw [if_pos h1, if_pos h2]
      simp
    · simp only [h1, if_true, h2, if_false, reduceCtorEq, false_iff]
      intro h
      have := (hc.maps _ _).2 h
      rw [← h1, hown] at this
      exact h2 (Option.some.inj this)
    · subst h2
      simp only [h1, if_false, if_true, reduceCtorEq, iff_false]
      intro h
      have := (hc.maps _ _).1 h
      rw [hget] at this
      exact h1 (Option.some.inj this)
    · simp only [h1, h2, if_false]
      exact hc.maps n x
  · intro x
    simp only [GoMap.get_delete]
    by_cases h2 : svc = x
    · simp [h2]
    · simp only [h2, if_false]
      exact hc.named x
  · exact hc.nodup.erase svc
  · intro x
    simp only [GoMap.get_delete]
    rw [hc.nodup.mem_erase_iff]
    by_cases h2 : svc = x
    · subst h2
      simp
    · simp only [h2, if_false]
      rw [hc.ordered x]
      constructor
      · exact fun h => h.2
      · exact fun h => ⟨fun hx => h2 hx.symm, h⟩

theorem nilFree_empty : NilFree { names := [], services := [], orderedServices := [] } := rfl

theorem consistent_NewServer (base : Nat) : Consistent (NewServer base) :=
  consistent_AddService consistent_empty nilFree_empty "Base" (Service.ref base)

theorem nilFree_NewServer (base : Nat) : NilFree (NewServer base) :=
  nilFree_AddService nilFree_empty "Base" (Service.ref base) (by simp)

theorem consistent_runCalls (calls : List Call) : ∀ s : Server, Consistent s → NilFree s →
    (∀ c ∈ calls, c.service ≠ Service.nil) →
    Consistent (runCalls s calls) ∧ NilFree (runCalls s calls) := by
  induction calls with
  | nil => intro s hc hnil _; exact ⟨hc, hnil⟩
  | cons c calls ih =>
    intro s hc hnil hcalls
    simp only [runCalls, List.foldl_cons]
    have hrest : ∀ c' ∈ calls, c'.service ≠ Service.nil :=
      fun c' hc' => hcalls c' (List.mem_cons_of_mem c hc')
    have hthis := hcalls c (List.mem_cons_self c calls)
    cases c with
    | add name service =>
      exact ih _ (consistent_AddService hc hnil name service)
        (nilFree_AddService hnil name service hthis) hrest
    | remove service =>
      exact ih _ (consistent_RemoveService hc service) (nilFree_RemoveService hnil service) hrest

/-! ## The registry claims -/

/-- C1: for a service that is not yet registered, `AddService` returns the requested name
(`"NoName"` for the empty one) when no service owns it, and otherwise that name followed
by the decimal rendering of the smallest `k ≥ 2` whose suffixed name no service owns;
afterwards the returned name looks up to the service. -/
theorem AddService_assigns_name (s : Server) (n : String) (svc : Service)
    (hnew : s.nameOf svc = "") :
    (s.lookup (defaultName n) = Service.nil → (AddService s n svc).1 = defaultName n) ∧
    (s.lookup (defaultName n) ≠ Service.nil →
      ∃ k, 2 ≤ k ∧ (AddService s n svc).1 = defaultName n ++ toString k ∧
        s.lookup (defaultName n ++ toString k) = Service.nil ∧
        ∀ j, 2 ≤ j → j < k → s.lookup (defaultName n ++ toString j) ≠ Service.nil) ∧
    (AddService s n svc).2.lookup (AddService s n svc).1 = svc := by
  have hadd : AddService s n svc = addService s n svc := by
    simp [AddService, hnew]
  rw [hadd]
  refine ⟨?_, ?_, ?_⟩
  · intro h
    simp [addService, h]
  · intro h
    obtain ⟨k, hk1, hk2, hk3, hk4⟩ := suffixLoop_spec s.services (defaultName n)
      (s.services.length + 1) 2 (exists_free_suffix s.services (defaultName n))
    refine ⟨k, hk1, ?_, hk3, fun j hj1 hj2 => hk4 j hj1 hj2⟩
    simp only [addService, ne_eq, h, not_false_eq_true, if_true]
    exact hk2
  · rw [addService_snd, addService_fst]
    simp [Server.lookup, owner_set]

theorem AddService_assigns_name_witness :
    (AddService (NewServer 0) "x" (Service.ref 1)).2.nameOf (Service.ref 2) = "" ∧
    (∃ k, 2 ≤ k ∧
      (AddService (AddService (NewServer 0) "x" (Service.ref 1)).2 "x" (Service.ref 2)).1
        = defaultName "x" ++ toString k ∧
      (AddService (NewServer 0) "x" (Service.ref 1)).2.lookup (defaultName "x" ++ toString k)
        = Service.nil ∧
      ∀ j, 2 ≤ j → j < k →
        (AddService (NewServer 0) "x" (Service.ref 1)).2.lookup (defaultName "x" ++ toString j)
          ≠ Service.nil) ∧
    (AddService (AddService (NewServer 0) "x" (Service.ref 1)).2 "x" (Service.ref 2)).2.lookup
      (AddService (AddService (NewServer 0) "x" (Service.ref 1)).2 "x" (Service.ref 2)).1
      = Service.ref 2 :=
  ⟨by decide,
   (AddService_assigns_name (AddService (NewServer 0) "x" (Service.ref 1)).2 "x"
      (Service.ref 2) (by decide)).2.1 (by decide),
   (AddService_assigns_name (AddService (NewServer 0) "x" (Service.ref 1)).2 "x"
      (Service.ref 2) (by decide)).2.2⟩

/-- C2: for a service that is already registered, `AddService` returns the name the
service has and leaves the two maps and the ordered sequence as they were; and from any
state, registering a service a second time, under any name, returns the name of the first
registration and changes nothing. -/
theorem AddService_registered_unchanged (s : Server) (n : String) (svc : Service) :
    (s.nameOf svc ≠ "" → AddService s n svc = (s.nameOf svc, s)) ∧
    (∀ m, AddService (AddService s n svc).2 m svc
        = ((AddService s n svc).1, (AddService s n svc).2)) := by
  have hfirst : s.nameOf svc ≠ "" → AddService s n svc = (s.nameOf svc, s) := by
    intro hreg
    simp [AddService, hreg]
  refine ⟨hfirst, ?_⟩
  intro m
  have hname : (AddService s n svc).2.nameOf svc = (AddService s n svc).1 ∧
      (AddService s n svc).1 ≠ "" := by
    by_cases hreg : s.nameOf svc = ""
    · have hadd : AddService s n svc = addService s n svc := by
        simp [AddService, hreg]
      rw [hadd, addService_snd, addService_fst]
      exact ⟨by simp [Server.nameOf, GoMap.get_set], assignedName_ne_empty s n⟩
    · rw [hfirst hreg]
      exact ⟨rfl, hreg⟩
  obtain ⟨h1, h2⟩ := hname
  have hreg2 : (AddService s n svc).2.nameOf svc ≠ "" := by
    rw [h1]
    exact h2
  generalize AddService s n svc = r at h1 hreg2
  obtain ⟨name, s'⟩ := r
  simp only at h1 hreg2
  subst h1
  simp only [AddService]
  rw [if_pos hreg2]

theorem AddService_registered_unchanged_witness :
    (AddService (NewServer 0) "x" (Service.ref 1)).2.nameOf (Service.ref 1) ≠ "" ∧
    AddService (AddService (NewServer 0) "x" (Service.ref 1)).2 "y" (Service.ref 1)
      = ((AddService (NewServer 0) "x" (Service.ref 1)).2.nameOf (Service.ref 1),
          (AddService (NewServer 0) "x" (Service.ref 1)).2) :=
  ⟨by decide,
   (AddService_registered_unchanged (AddService (NewServer 0) "x" (Service.ref 1)).2 "y"
      (Service.ref 1)).1 (by decide)⟩

/-- C3, as the spec states it, fails: when the owner of "x2" is removed before the third
registration of "x", the third service is named "x2", not "x3". -/
theorem third_registration_after_removal :
    (AddService
        (RemoveService
          (AddService (AddService (NewServer 0) "x" (Service.ref 1)).2 "x" (Service.ref 2)).2
          (Service.ref 2)) "x" (Service.ref 3)).1 = "x2" ∧
    (AddService
        (RemoveService
          (AddService (AddService (NewServer 0) "x" (Service.ref 1)).2 "x" (Service.ref 2)).2
          (Service.ref 2)) "x" (Service.ref 3)).1 ≠ "x3" := by
  decide

theorem NewServer_eq (base : Nat) :
    NewServer base =
      { names := [(Service.ref base, "Base")], services := [("Base", Service.ref base)],
        orderedServices := [Service.ref base] } :=
  rfl

theorem suffixed_x_two : suffixed "x" 2 = "x2" := by decide

theorem suffixed_x_three : suffixed "x" 3 = "x3" := by decide

theorem first_x (base a : Nat) (ha : a ≠ base) :
    AddService (NewServer base) "x" (Service.ref a) =
      ("x", { names := [(Service.ref a, "x"), (Service.ref base, "Base")],
              services := [("x", Service.ref a), ("Base", Service.ref base)],
              orderedServices := [Service.ref base, Service.ref a] }) := by
  rw [NewServer_eq]
  simp [AddService, addService, Server.nameOf, Server.lookup, owner, GoMap.get, GoMap.set,
    GoMap.delete, defaultName, Ne.symm ha]

theorem second_x (base a b : Nat) (ha : a ≠ base) (hb : b ≠ base) (hab : a ≠ b) :
    AddService (AddService (NewServer base) "x" (Service.ref a)).2 "x" (Service.ref b) =
      ("x2", { names := [(Service.ref b, "x2"), (Service.ref a, "x"), (Service.ref base, "Base")],
               services := [("x2", Service.ref b), ("x", Service.ref a),
                 ("Base", Service.ref base)],
               orderedServices := [Service.ref base, Service.ref a, Service.ref b] }) := by
  rw [first_x base a ha]
  simp [AddService, addService, Server.nameOf, Server.lookup, owner, GoMap.get, GoMap.set,
    GoMap.delete, defaultName, Ne.symm hb, hab, suffixLoop, suffixed_x_two]

/-- C3, amended: from `NewServer`, for three distinct non-nil services other than the base
service, registering "x" three times returns "x", "x2" and "x3" when nothing is removed;
when the owner of "x2" is removed before the third registration, the third returns "x2",
the first free suffix counted from 2. -/
theorem collision_suffixing (base a b c : Nat) (ha : a ≠ base) (hb : b ≠ base)
    (hc : c ≠ base) (hab : a ≠ b) (hac : a ≠ c) (hbc : b ≠ c) :
    (AddService (NewServer base) "x" (Service.ref a)).1 = "x" ∧
    (AddService (AddService (NewServer base) "x" (Service.ref a)).2 "x" (Service.ref b)).1
      = "x2" ∧
    (AddService
      (AddService (AddService (NewServer base) "x" (Service.ref a)).2 "x" (Service.ref b)).2
      "x" (Service.ref c)).1 = "x3" ∧
    (AddService
      (RemoveService
        (AddService (AddService (NewServer base) "x" (Service.ref a)).2 "x" (Service.ref b)).2
        (Service.ref b))
      "x" (Service.ref c)).1 = "x2" := by
  refine ⟨?_, ?_, ?_, ?_⟩
  · rw [first_x base a ha]
  · rw [second_x base a b ha hb hab]
  · rw [second_x base a b ha hb hab]
    simp [AddService, addService, Server.nameOf, Server.lookup, owner, GoMap.get, GoMap.set,
      GoMap.delete, defaultName, Ne.symm hc, hac, hbc, suffixLoop, suffixed_x_two,
      suffixed_x_three]
  · rw [second_x base a b ha hb hab]
    simp [AddService, addService, RemoveService, removeOrdered, Server.nameOf, Server.lookup,
      owner, GoMap.get, GoMap.set, GoMap.delete, defaultName, Ne.symm hc, Ne.symm hb, hab, hac,
      hbc, suffixLoop, suffixed_x_two]

theorem collision_suffixing_witness :
    (AddService (NewServer 0) "x" (Service.ref 1)).1 = "x" ∧
    (AddService (AddService (NewServer 0) "x" (Service.ref 1)).2 "x" (Service.ref 2)).1
      = "x2" ∧
    (AddService
      (AddService (AddService (NewServer 0) "x" (Service.ref 1)).2 "x" (Service.ref 2)).2
      "x" (Service.ref 3)).1 = "x3" ∧
    (AddService
      (RemoveService
        (AddService (AddService (NewServer 0) "x" (Service.ref 1)).2 "x" (Service.ref 2)).2
        (Service.ref 2))
      "x" (Service.ref 3)).1 = "x2" :=
  collision_suffixing 0 1 2 3 (by decide) (by decide) (by decide) (by decide) (by decide)
    (by decide)

/-- C4, as the spec states it, fails: `AddService` stores a nil service without a guard
and still reads its name as free. After `AddService("x", nil)`, `AddService("x", s1)`,
`RemoveService(nil)` and `AddService("x", s2)` the two services `s1` and `s2` both have the
name "x", the name looks up to `s2` only, and the views do not agree. -/
theorem nil_service_breaks_views :
    (runCalls (NewServer 0)
      [Call.add "x" Service.nil, Call.add "x" (Service.ref 1), Call.remove Service.nil,
        Call.add "x" (Service.ref 2)]).nameOf (Service.ref 1) = "x" ∧
    (runCalls (NewServer 0)
      [Call.add "x" Service.nil, Call.add "x" (Service.ref 1), Call.remove Service.nil,
        Call.add "x" (Service.ref 2)]).nameOf (Service.ref 2) = "x" ∧
    (runCalls (NewServer 0)
      [Call.add "x" Service.nil, Call.add "x" (Service.ref 1), Call.remove Service.nil,
        Call.add "x" (Service.ref 2)]).lookup "x" = Service.ref 2 ∧
    (runCalls (NewServer 0)
      [Call.add "x" Service.nil, Call.add "x" (Service.ref 1)]).nameOf Service.nil = "x" ∧
    (runCalls (NewServer 0)
      [Call.add "x" Service.nil, Call.add "x" (Service.ref 1)]).lookup "x" = Service.ref 1 ∧
    ¬ Consistent (runCalls (NewServer 0)
      [Call.add "x" Service.nil, Call.add "x" (Service.ref 1), Call.remove Service.nil,
        Call.add "x" (Service.ref 2)]) := by
  refine ⟨by decide, by decide, by decide, by decide, by decide, ?_⟩
  intro h
  have h1 := (h.maps "x" (Service.ref 1)).2 (by decide)
  revert h1
  decide

/-- C4, amended: in the state of `NewServer` and after every sequence of `AddService` and
`RemoveService` calls on services that are not nil, the three views agree: a service is
stored under a name exactly when that name is stored for the service (so a name has one
owner and a service one name), no stored name is empty, nil is not registered, and the
ordered sequence holds, once each, exactly the services that have a name. -/
theorem registry_views_consistent (base : Nat) (calls : List Call)
    (hcalls : ∀ c ∈ calls, c.service ≠ Service.nil) :
    Consistent (runCalls (NewServer base) calls) ∧
    (∀ n svc, (runCalls (NewServer base) calls).services.get n = some svc ↔
      (runCalls (NewServer base) calls).names.get svc = some n) ∧
    (∀ n svc, n ≠ "" → svc ≠ Service.nil →
      ((runCalls (NewServer base) calls).lookup n = svc ↔
        (runCalls (NewServer base) calls).nameOf svc = n)) ∧
    (runCalls (NewServer base) calls).nameOf Service.nil = "" ∧
    Service.nil ∉ (runCalls (NewServer base) calls).orderedServices ∧
    (runCalls (NewServer base) calls).orderedServices.Nodup ∧
    (∀ svc, svc ∈ (runCalls (NewServer base) calls).orderedServices ↔
      (runCalls (NewServer base) calls).nameOf svc ≠ "") := by
  obtain ⟨hc, hnil⟩ := consistent_runCalls calls (NewServer base) (consistent_NewServer base)
    (nilFree_NewServer base) hcalls
  generalize runCalls (NewServer base) calls = s at hc hnil
  have hmem : ∀ svc, svc ∈ s.orderedServices ↔ s.nameOf svc ≠ "" := by
    intro svc
    rw [hc.ordered svc, ne_eq, ne_eq, hc.nameOf_eq_empty_iff svc]
  have hnilname : s.nameOf Service.nil = "" := (hc.nameOf_eq_empty_iff _).2 hnil
  refine ⟨hc, hc.maps, ?_, hnilname, ?_, hc.nodup, hmem⟩
  · intro n svc hn hsvc
    constructor
    · intro h
      exact Consistent.nameOf_of_get ((hc.maps n svc).1 (get_of_owner h hsvc))
    · intro h
      cases hg : s.names.get svc with
      | none =>
        rw [(hc.nameOf_eq_empty_iff svc).2 hg] at h
        exact absurd h.symm hn
      | some a =>
        rw [Consistent.nameOf_of_get hg] at h
        subst h
        exact owner_of_get ((hc.maps a svc).2 hg)
  · intro hin
    exact (hmem _).1 hin hnilname

theorem registry_views_consistent_witness :
    (∀ c ∈ [Call.add "x" (Service.ref 1), Call.add "x" (Service.ref 2),
        Call.remove (Service.ref 1), Call.add "" (Service.ref 3)],
      c.service ≠ Service.nil) ∧
    Consistent (runCalls (NewServer 0)
      [Call.add "x" (Service.ref 1), Call.add "x" (Service.ref 2),
        Call.remove (Service.ref 1), Call.add "" (Service.ref 3)]) ∧
    (runCalls (NewServer 0)
      [Call.add "x" (Service.ref 1), Call.add "x" (Service.ref 2),
        Call.remove (Service.ref 1), Call.add "" (Service.ref 3)]).orderedServices.Nodup :=
  have h := registry_views_consistent 0
    [Call.add "x" (Service.ref 1), Call.add "x" (Service.ref 2),
      Call.remove (Service.ref 1), Call.add "" (Service.ref 3)] (by decide)
  ⟨by decide, h.1, h.2.2.2.2.2.1⟩

/-- C5: in a consistent registry, removing a service registered under `a` frees `a`,
leaves the service without a name, deletes it from the ordered sequence keeping the order
of the others, and leaves every other service its name and its lookup entries; removing
a service that is not registered changes nothing. -/
theorem RemoveService_effect (s : Server) (svc : Service) (hc : Consistent s) :
    (∀ a, s.names.get svc = some a →
      (RemoveService s svc).services.get a = none ∧
      (RemoveService s svc).lookup a = Service.nil ∧
      (RemoveService s svc).names.get svc = none ∧
      (RemoveService s svc).nameOf svc = "" ∧
      svc ∉ (RemoveService s svc).orderedServices ∧
      (RemoveService s svc).orderedServices = s.orderedServices.filter (fun x => x ≠ svc) ∧
      ∀ other, other ≠ svc →
        (RemoveService s svc).names.get other = s.names.get other ∧
        (RemoveService s svc).nameOf other = s.nameOf other ∧
        (∀ n, (RemoveService s svc).services.get n = some other ↔
          s.services.get n = some other) ∧
        (other ≠ Service.nil →
          ∀ n, (RemoveService s svc).lookup n = other ↔ s.lookup n = other)) ∧
    (s.names.get svc = none → RemoveService s svc = s) := by
  constructor
  · intro a ha
    have hname : s.nameOf svc = a := Consistent.nameOf_of_get ha
    have hreg : s.nameOf svc ≠ "" := by
      rw [hname]
      intro h
      exact hc.named svc (by rw [ha, h])
    rw [RemoveService_of_registered s svc hreg, hname]
    have hentries : ∀ other, other ≠ svc → ∀ n,
        (s.services.delete a).get n = some other ↔ s.services.get n = some other := by
      intro other hne n
      simp only [GoMap.get_delete]
      by_cases hn : a = n
      · subst hn
        simp only [if_true, reduceCtorEq, false_iff]
        intro h
        have h2 := (hc.maps a svc).2 ha
        rw [h] at h2
        exact hne (Option.some.inj h2)
      · simp [hn]
    refine ⟨?_, ?_, ?_, ?_, ?_, ?_, ?_⟩
    · simp [GoMap.get_delete]
    · simp [Server.lookup, owner_delete]
    · simp [GoMap.get_delete]
    · simp [Server.nameOf, GoMap.get_delete]
    · simp only
      rw [hc.nodup.mem_erase_iff]
      simp
    · simp only
      rw [hc.nodup.erase_eq_filter]
      congr 1
      funext x
      by_cases hx : x = svc <;> simp [hx]
    · intro other hne
      refine ⟨?_, ?_, hentries other hne, ?_⟩
      · simp [GoMap.get_delete, Ne.symm hne]
      · simp [Server.nameOf, GoMap.get_delete, Ne.symm hne]
      · intro hnn n
        constructor
        · intro h
          exact owner_of_get ((hentries other hne n).1 (get_of_owner h hnn))
        · intro h
          exact owner_of_get ((hentries other hne n).2 (get_of_owner h hnn))
  · intro h
    exact RemoveService_of_unregistered s svc ((hc.nameOf_eq_empty_iff svc).2 h)

theorem RemoveService_effect_witness :
    Consistent
      (AddService (AddService (NewServer 0) "one" (Service.ref 1)).2 "two" (Service.ref 2)).2 ∧
    (RemoveService
      (AddService (AddService (NewServer 0) "one" (Service.ref 1)).2 "two" (Service.ref 2)).2
      (Service.ref 1)).lookup "one" = Service.nil ∧
    (RemoveService
      (AddService (AddService (NewServer 0) "one" (Service.ref 1)).2 "two" (Service.ref 2)).2
      (Service.ref 1)).orderedServices = [Service.ref 0, Service.ref 2] ∧
    RemoveService
      (AddService (AddService (NewServer 0) "one" (Service.ref 1)).2 "two" (Service.ref 2)).2
      (Service.ref 7)
      = (AddService (AddService (NewServer 0) "one" (Service.ref 1)).2 "two"
          (Service.ref 2)).2 :=
  have hc : Consistent
      (AddService (AddService (NewServer 0) "one" (Service.ref 1)).2 "two" (Service.ref 2)).2 :=
    consistent_AddService
      (consistent_AddService (consistent_NewServer 0) (nilFree_NewServer 0) "one"
        (Service.ref 1))
      (nilFree_AddService (nilFree_NewServer 0) "one" (Service.ref 1) (by simp)) "two"
      (Service.ref 2)
  ⟨hc,
   ((RemoveService_effect _ (Service.ref 1) hc).1 "one" (by decide)).2.1,
   ((RemoveService_effect _ (Service.ref 1) hc).1 "one" (by decide)).2.2.2.2.2.1,
   (RemoveService_effect _ (Service.ref 7) hc).2 (by decide)⟩

/-! ## Lemmas on the handler -/

theorem replaceEach_append (f : Char → String) (a b : String) :
    replaceEach f (a ++ b) = replaceEach f a ++ replaceEach f b := by
  apply String.ext
  simp [replaceEach]

theorem replaceEach_unchanged (f : Char → String) (s : String)
    (h : ∀ c ∈ s.data, f c = String.singleton c) : replaceEach f s = s := by
  apply String.ext
  obtain ⟨l⟩ := s
  simp only [replaceEach]
  induction l with
  | nil => rfl
  | cons c l ih =>
    simp only [List.flatMap_cons]
    rw [h c (List.mem_cons_self c l), ih (fun d hd => h d (List.mem_cons_of_mem c hd))]
    rfl

theorem quoteRune_plain (table : Char → Bool) (c : Char) (h1 : c ≠ '"') (h2 : c ≠ '\\')
    (h3 : IsPrint table c = true) : quoteRune table c = String.singleton c := by
  simp [quoteRune, h1, h2, h3]

theorem ResponseWriter.Write_of_unwritten (w : ResponseWriter) (h : w.status = none)
    (data : String) :
    (w.Write data).1 =
      { header := w.header, status := some 200, sent := w.header, body := w.body ++ data } := by
  simp [ResponseWriter.Write, ResponseWriter.WriteHeader, h]

theorem reportError_of_unwritten (w : ResponseWriter) (h : w.status = none) (err : Error) :
    reportError w (some err) =
      { header := w.header.set "Content-Type" "text/html; charset=utf-8"
        status := some 500
        sent := w.header.set "Content-Type" "text/html; charset=utf-8"
        body := w.body ++ EscapeString err } := by
  simp [reportError, ResponseWriter.Write, ResponseWriter.WriteHeader, ResponseWriter.setHeader, h]

theorem mainPageLoop_ok (env : Env) (s : Server) : ∀ (l : List Service) (sb : String)
    (trace : List Event),
    (∀ svc ∈ l, svc ≠ Service.nil ∧ (env.MainPageEntry svc (s.nameOf svc)).2 = none) →
    mainPageLoop env s l sb trace =
      (sb ++ indexEntries env s l, none,
        trace ++ l.map (fun svc => Event.mainPageEntry svc (s.nameOf svc))) := by
  intro l
  induction l with
  | nil =>
    intro sb trace _
    simp [mainPageLoop, indexEntries]
  | cons svc l ih =>
    intro sb trace hok
    obtain ⟨hnn, h1⟩ := hok svc (List.mem_cons_self svc l)
    rcases hres : env.MainPageEntry svc (s.nameOf svc) with ⟨html, err⟩
    rw [hres] at h1
    simp only at h1
    subst h1
    simp only [mainPageLoop, hnn, if_false, hres, indexEntries]
    rw [ih _ _ (fun x hx => hok x (List.mem_cons_of_mem svc hx))]
    simp [String.append_assoc]

theorem mainPageLoop_fail (env : Env) (s : Server) (sj : Service) (post : List Service)
    (e : Error) (hsj : sj ≠ Service.nil)
    (hfail : (env.MainPageEntry sj (s.nameOf sj)).2 = some e) :
    ∀ (pre : List Service) (sb : String) (trace : List Event),
    (∀ svc ∈ pre, svc ≠ Service.nil ∧ (env.MainPageEntry svc (s.nameOf svc)).2 = none) →
    (mainPageLoop env s (pre ++ sj :: post) sb trace).2 =
      (some (Abort.error e),
        trace ++ pre.map (fun svc => Event.mainPageEntry svc (s.nameOf svc))
          ++ [Event.mainPageEntry sj (s.nameOf sj)]) := by
  intro pre
  induction pre with
  | nil =>
    intro sb trace _
    rcases hres : env.MainPageEntry sj (s.nameOf sj) with ⟨html, err⟩
    rw [hres] at hfail
    simp only at hfail
    subst hfail
    simp [mainPageLoop, hsj, hres]
  | cons svc pre ih =>
    intro sb trace hok
    obtain ⟨hnn, h1⟩ := hok svc (List.mem_cons_self svc pre)
    rcases hres : env.MainPageEntry svc (s.nameOf svc) with ⟨html, err⟩
    rw [hres] at h1
    simp only at h1
    subst h1
    change (mainPageLoop env s (svc :: (pre ++ sj :: post)) sb trace).2 = _
    simp only [mainPageLoop, hnn, if_false, hres]
    rw [ih _ _ (fun x hx => hok x (List.mem_cons_of_mem svc hx))]
    simp

/-- The index path of `serve` when every `MainPageEntry` succeeds. -/
theorem serve_index_ok (env : Env) (s : Server) (w : ResponseWriter) (r : Request)
    (hname : (requestedService r).1 = "")
    (hok : ∀ svc ∈ s.orderedServices,
      svc ≠ Service.nil ∧ (env.MainPageEntry svc (s.nameOf svc)).2 = none) :
    serve env s w r =
      (((w.setHeader "Content-Type" "text/html; charset=utf-8").Write
          ((Begin.Execute "Main").1 ++ indexEntries env s s.orderedServices ++ End)).1,
        none,
        s.orderedServices.map (fun svc => Event.mainPageEntry svc (s.nameOf svc))) := by
  simp only [serve, hname, ne_eq, not_true_eq_false, if_false]
  rw [show Begin.Execute "Main" = ((Begin.Execute "Main").1, none) from rfl]
  simp only
  rw [mainPageLoop_ok env s _ _ _ hok]
  simp

/-- The index path of `serve` when a `MainPageEntry` fails. -/
theorem serve_index_fail (env : Env) (s : Server) (w : ResponseWriter) (r : Request)
    (hname : (requestedService r).1 = "") (pre post : List Service) (sj : Service) (e : Error)
    (hsplit : s.orderedServices = pre ++ sj :: post)
    (hok : ∀ svc ∈ pre, svc ≠ Service.nil ∧ (env.MainPageEntry svc (s.nameOf svc)).2 = none)
    (hsj : sj ≠ Service.nil)
    (hfail : (env.MainPageEntry sj (s.nameOf sj)).2 = some e) :
    serve env s w r =
      (w.setHeader "Content-Type" "text/html; charset=utf-8", some e,
        pre.map (fun svc => Event.mainPageEntry svc (s.nameOf svc))
          ++ [Event.mainPageEntry sj (s.nameOf sj)]) := by
  simp only [serve, hname, ne_eq, not_true_eq_false, if_false]
  rw [show Begin.Execute "Main" = ((Begin.Execute "Main").1, none) from rfl]
  simp only
  have h := mainPageLoop_fail env s sj post e hsj hfail pre (Begin.Execute "Main").1 [] hok
  rw [← hsplit] at h
  rcases hres : mainPageLoop env s s.orderedServices (Begin.Execute "Main").1 [] with ⟨sb, err, tr⟩
  rw [hres] at h
  simp only [List.nil_append, Prod.mk.injEq] at h
  obtain ⟨h1, h2⟩ := h
  subst h1 h2
  rfl

theorem serviceEntry_eq (n : String) :
    (serviceEntry.Execute n).1 = "<h1>" ++ indexLink n ++ "</h1>\n" := by
  apply String.ext
  simp [serviceEntry.Execute, indexLink, String.data_append]

theorem indexLink_infix_indexEntries (env : Env) (s : Server) (svc : Service) :
    ∀ l : List Service, svc ∈ l →
      (indexLink (s.nameOf svc)).data <:+: (indexEntries env s l).data := by
  intro l
  induction l with
  | nil => intro h; simp at h
  | cons x l ih =>
    intro h
    simp only [indexEntries, String.data_append]
    rcases List.mem_cons.1 h with rfl | h'
    · rw [serviceEntry_eq]
      refine ⟨("<h1>" : String).data, ("</h1>\n" : String).data
        ++ ((env.MainPageEntry svc (s.nameOf svc)).1.data ++ (indexEntries env s l).data), ?_⟩
      simp only [String.data_append, List.append_assoc]
    · obtain ⟨a, b, hab⟩ := ih h'
      refine ⟨(serviceEntry.Execute (s.nameOf x)).1.data
        ++ (env.MainPageEntry x (s.nameOf x)).1.data ++ a, b, ?_⟩
      rw [← hab]
      simp only [List.append_assoc]

/-! ## Lemmas on escaping -/

theorem Char.toNat_lt_max (c : Char) : c.toNat < 0x110000 := by
  have h := c.valid
  simp only [UInt32.isValidChar, Nat.isValidChar] at h
  have : c.toNat = c.val.toNat := rfl
  omega

theorem utf8Bytes_lt (c : Char) : ∀ b ∈ utf8Bytes c, b < 256 := by
  have hc := Char.toNat_lt_max c
  intro b hb
  simp only [utf8Bytes] at hb
  split at hb
  · simp only [List.mem_singleton] at hb
    omega
  · split at hb
    · simp only [List.mem_cons, List.mem_singleton, List.not_mem_nil, or_false] at hb
      omega
    · split at hb
      · simp only [List.mem_cons, List.mem_singleton, List.not_mem_nil, or_false] at hb
        omega
      · simp only [List.mem_cons, List.mem_singleton, List.not_mem_nil, or_false] at hb
        omega

theorem utf8Decode_head (b0 : Nat) (rest : List Nat) (c : Char) (skip : Nat)
    (h : utf8DecodeChar b0 rest = some (c, skip)) :
    utf8Decode 0 (b0 :: rest) = (utf8Decode skip rest).map (fun cs => c :: cs) := by
  rw [utf8Decode, h]

theorem utf8Decode_skip (skip : Nat) (b : Nat) (rest : List Nat) :
    utf8Decode (skip + 1) (b :: rest) = utf8Decode skip rest := by
  rw [utf8Decode]

theorem utf8Decode_utf8Bytes (c : Char) (rest : List Nat) :
    utf8Decode 0 (utf8Bytes c ++ rest) = (utf8Decode 0 rest).map (fun cs => c :: cs) := by
  have hc := Char.toNat_lt_max c
  simp only [utf8Bytes]
  split
  · rename_i h1
    rw [List.singleton_append,
      utf8Decode_head _ _ c 0 (by simp only [utf8DecodeChar, h1, if_true, Char.ofNat_toNat])]
  · rename_i h1
    split
    · rename_i h2
      have ha : ¬ (0xC0 + c.toNat / 64 < 0x80) := by omega
      have hb : 0xC0 + c.toNat / 64 < 0xE0 := by omega
      have hv : (0xC0 + c.toNat / 64 - 0xC0) * 64 + (0x80 + c.toNat % 64 - 0x80) = c.toNat := by
        omega
      simp only [List.cons_append, List.nil_append]
      rw [utf8Decode_head _ _ c 1
        (by simp only [utf8DecodeChar, ha, hb, if_false, if_true, hv, Char.ofNat_toNat]),
        utf8Decode_skip]
    · rename_i h2
      split
      · rename_i h3
        have ha : ¬ (0xE0 + c.toNat / 4096 < 0x80) := by omega
        have hb : ¬ (0xE0 + c.toNat / 4096 < 0xE0) := by omega
        have hd : 0xE0 + c.toNat / 4096 < 0xF0 := by omega
        have hv : (0xE0 + c.toNat / 4096 - 0xE0) * 4096 + (0x80 + c.toNat / 64 % 64 - 0x80) * 64
            + (0x80 + c.toNat % 64 - 0x80) = c.toNat := by
          omega
        simp only [List.cons_append, List.nil_append]
        rw [utf8Decode_head _ _ c 2
          (by simp only [utf8DecodeChar, ha, hb, hd, if_false, if_true, hv, Char.ofNat_toNat]),
          utf8Decode_skip, utf8Decode_skip]
      · rename_i h3
        have ha : ¬ (0xF0 + c.toNat / 262144 < 0x80) := by omega
        have hb : ¬ (0xF0 + c.toNat / 262144 < 0xE0) := by omega
        have hd : ¬ (0xF0 + c.toNat / 262144 < 0xF0) := by omega
        have hv : (0xF0 + c.toNat / 262144 - 0xF0) * 262144
            + (0x80 + c.toNat / 4096 % 64 - 0x80) * 4096
            + (0x80 + c.toNat / 64 % 64 - 0x80) * 64 + (0x80 + c.toNat % 64 - 0x80)
              = c.toNat := by
          omega
        simp only [List.cons_append, List.nil_append]
        rw [utf8Decode_head _ _ c 3
          (by simp only [utf8DecodeChar, ha, hb, hd, if_false, hv, Char.ofNat_toNat]),
          utf8Decode_skip, utf8Decode_skip, utf8Decode_skip]

theorem utf8Decode_flatMap (cs : List Char) :
    utf8Decode 0 (cs.flatMap utf8Bytes) = some cs := by
  induction cs with
  | nil => rfl
  | cons c cs ih =>
    rw [List.flatMap_cons, utf8Decode_utf8Bytes, ih]
    rfl

set_option maxRecDepth 100000 in
theorem unreserved_byte : ∀ b < 256, isUnreserved b = true →
    Char.ofNat b ≠ '%' ∧ Char.ofNat b ≠ '+' ∧ (Char.ofNat b).toNat = b ∧ b < 128 := by
  decide

theorem hexValue_digitChar : ∀ k < 16, hexValue (Nat.digitChar k) = some k := by
  decide

set_option maxRecDepth 100000 in
theorem urlEscapeByte_queryChar : ∀ b < 256, ∀ c ∈ urlEscapeByte b, isQueryChar c = true := by
  decide

theorem percentDecode_head (c : Char) (rest : List Char) (h1 : c ≠ '%') (h2 : c ≠ '+')
    (h3 : c.toNat < 128) :
    percentDecode 0 (c :: rest) = (percentDecode 0 rest).map (fun bytes => c.toNat :: bytes) := by
  rw [percentDecode]
  simp only [h1, h2, h3, if_false, if_true]

theorem percentDecode_escape (a b : Char) (rest : List Char) (v : Nat)
    (h : readHexPair (a :: b :: rest) = some v) :
    percentDecode 0 ('%' :: a :: b :: rest)
      = (percentDecode 0 rest).map (fun bytes => v :: bytes) := by
  rw [percentDecode]
  simp only [if_true, h]
  rw [percentDecode, percentDecode]

theorem percentDecode_urlEscapeByte (b : Nat) (hb : b < 256) (rest : List Char) :
    percentDecode 0 (urlEscapeByte b ++ rest)
      = (percentDecode 0 rest).map (fun bytes => b :: bytes) := by
  unfold urlEscapeByte
  split
  · rename_i hu
    obtain ⟨h1, h2, h3, h4⟩ := unreserved_byte b hb hu
    rw [List.singleton_append, percentDecode_head _ _ h1 h2 (by omega), h3]
  · have hpair : readHexPair (Nat.digitChar (b / 16) :: Nat.digitChar (b % 16) :: rest)
        = some b := by
      simp only [readHexPair, hexValue_digitChar (b / 16) (by omega),
        hexValue_digitChar (b % 16) (by omega)]
      congr 1
      omega
    simp only [List.cons_append, List.nil_append]
    rw [percentDecode_escape _ _ _ b hpair]

theorem percentDecode_flatMap (bytes : List Nat) (hb : ∀ b ∈ bytes, b < 256) :
    ∀ rest : List Char, percentDecode 0 (bytes.flatMap urlEscapeByte ++ rest)
      = (percentDecode 0 rest).map (fun more => bytes ++ more) := by
  induction bytes with
  | nil =>
    intro rest
    simp
  | cons b bytes ih =>
    intro rest
    rw [List.flatMap_cons, List.append_assoc,
      percentDecode_urlEscapeByte b (hb b (List.mem_cons_self b bytes)),
      ih (fun x hx => hb x (List.mem_cons_of_mem b hx))]
    cases percentDecode 0 rest <;> simp

theorem percentDecode_urlEscaper (cs : List Char) :
    percentDecode 0 (cs.flatMap (fun c => (utf8Bytes c).flatMap urlEscapeByte))
      = some (cs.flatMap utf8Bytes) := by
  induction cs with
  | nil => rfl
  | cons c cs ih =>
    rw [List.flatMap_cons, percentDecode_flatMap _ (utf8Bytes_lt c), ih]
    simp

/-- Reading the escaped query value gives the name back. -/
theorem queryUnescape_urlEscaper (n : String) : queryUnescape (urlEscaper n) = some n := by
  simp only [queryUnescape, urlEscaper, percentDecode_urlEscaper, Option.some_bind,
    utf8Decode_flatMap, Option.map_some']

/-- The escaped query value holds letters, digits, `-`, `.`, `_`, `~` and `%` only. -/
theorem urlEscaper_queryChars (n : String) : ∀ c ∈ (urlEscaper n).data, isQueryChar c = true := by
  intro c hc
  simp only [urlEscaper, List.mem_flatMap] at hc
  obtain ⟨x, _, b, hb, hcb⟩ := hc
  exact urlEscapeByte_queryChar b (utf8Bytes_lt x b hb) c hcb

theorem htmlReplacement_plain (c d : Char) (hd : d ∈ (htmlReplacement c).data) :
    d ≠ '<' ∧ d ≠ '>' ∧ d ≠ '"' ∧ d ≠ '\'' := by
  unfold htmlReplacement at hd
  split at hd
  · revert d; decide
  · split at hd
    · revert d; decide
    · split at hd
      · revert d; decide
      · split at hd
        · revert d; decide
        · split at hd
          · revert d; decide
          · split at hd
            · revert d; decide
            · split at hd
              · revert d; decide
              · rename_i h0 h1 h2 h3 h4 h5 h6
                have hdc : d = c := by
                  simpa [String.singleton] using hd
                subst hdc
                exact ⟨h5, h6, h1, h3⟩

theorem unescapeEntities_head (c : Char) (rest : List Char) (h : c ≠ '&') :
    unescapeEntities 0 (c :: rest) = c :: unescapeEntities 0 rest := by
  rw [unescapeEntities]
  simp only [h, if_false]

theorem unescapeEntities_reference (ref rest : List Char) (ch : Char) (skip : Nat)
    (h : readReference (ref ++ rest) = some (ch, skip)) (hlen : ref.length = skip) :
    unescapeEntities 0 ('&' :: (ref ++ rest)) = ch :: unescapeEntities 0 rest := by
  rw [unescapeEntities]
  simp only [if_true, h]
  congr 1
  subst hlen
  clear h
  induction ref with
  | nil => rfl
  | cons x ref ih =>
    simp only [List.cons_append, List.length_cons]
    rw [unescapeEntities]
    exact ih

/-- Reading the escaped text gives the name back, but for a NUL, which is shown as
U+FFFD. -/
theorem unescapeEntities_htmlReplacement (c : Char) (rest : List Char) :
    unescapeEntities 0 ((htmlReplacement c).data ++ rest)
      = (if c = Char.ofNat 0 then Char.ofNat 0xFFFD else c) :: unescapeEntities 0 rest := by
  by_cases h0 : c = Char.ofNat 0
  · subst h0
    exact unescapeEntities_head (Char.ofNat 0xFFFD) rest (by decide)
  rw [if_neg h0]
  by_cases h1 : c = '"'
  · subst h1
    exact unescapeEntities_reference ['#', '3', '4', ';'] rest _ 4 rfl rfl
  by_cases h2 : c = '&'
  · subst h2
    exact unescapeEntities_reference ['a', 'm', 'p', ';'] rest _ 4 rfl rfl
  by_cases h3 : c = '\''
  · subst h3
    exact unescapeEntities_reference ['#', '3', '9', ';'] rest _ 4 rfl rfl
  by_cases h4 : c = '+'
  · subst h4
    exact unescapeEntities_reference ['#', '4', '3', ';'] rest _ 4 rfl rfl
  by_cases h5 : c = '<'
  · subst h5
    exact unescapeEntities_reference ['l', 't', ';'] rest _ 3 rfl rfl
  by_cases h6 : c = '>'
  · subst h6
    exact unescapeEntities_reference ['g', 't', ';'] rest _ 3 rfl rfl
  have hrep : htmlReplacement c = String.singleton c := by
    simp only [htmlReplacement, h0, h1, h2, h3, h4, h5, h6, if_false]
  rw [hrep]
  exact unescapeEntities_head c rest h2

theorem unescapeEntities_htmlEscaper (n : String) :
    unescapeEntities 0 (htmlEscaper n).data
      = n.data.map (fun c => if c = Char.ofNat 0 then Char.ofNat 0xFFFD else c) := by
  obtain ⟨cs⟩ := n
  simp only [htmlEscaper, replaceEach]
  induction cs with
  | nil => rfl
  | cons c cs ih =>
    rw [List.flatMap_cons, unescapeEntities_htmlReplacement, ih]
    rfl

/-- The escaped text holds no `<`, `>`, `"` or `'`. -/
theorem htmlEscaper_plain (n : String) :
    ∀ d ∈ (htmlEscaper n).data, d ≠ '<' ∧ d ≠ '>' ∧ d ≠ '"' ∧ d ≠ '\'' := by
  intro d hd
  simp only [htmlEscaper, replaceEach, List.mem_flatMap] at hd
  obtain ⟨c, _, hc⟩ := hd
  exact htmlReplacement_plain c d hc

/-! ## The handler claims -/

/-- A POST request whose form fails to parse is answered like a GET request without a
`service` parameter: the error of `ParseForm` is overwritten before it is reported. -/
theorem parseForm_error_overwritten (env : Env) (s : Server) (w : ResponseWriter) (r : Request)
    (hpost : r.Method = "POST") (e : Error) (he : r.parseForm = some e) :
    ServeHTTP env s w r = ServeHTTP env s w (getRequest none) := by
  have h1 : (requestedService r).1 = "" := by
    simp [requestedService, hpost, he]
  have h2 : (requestedService (getRequest none)).1 = "" := by
    simp [requestedService, getRequest]
  have hserve : serve env s w r = serve env s w (getRequest none) := by
    simp only [serve, h1, h2]
    simp
  simp only [ServeHTTP, hserve]

/-- The sibling path: an error a `ServicePage` returns before anything is written is
reported as the status-500 page with the escaped error as body. -/
theorem ServicePage_error_reported (env : Env) (s : Server) (w : ResponseWriter) (r : Request)
    (e : Error) (hne : (requestedService r).1 ≠ "")
    (hreg : s.lookup (requestedService r).1 ≠ Service.nil)
    (herr : (env.ServicePage (s.lookup (requestedService r).1) (requestedService r).1 w r).2
      = some e)
    (hw : (env.ServicePage (s.lookup (requestedService r).1) (requestedService r).1 w r).1.status
      = none)
    (hb : (env.ServicePage (s.lookup (requestedService r).1) (requestedService r).1 w r).1.body
      = "") :
    (ServeHTTP env s w r).1.status = some 500 ∧
    (ServeHTTP env s w r).1.sent.get "Content-Type" = some "text/html; charset=utf-8" ∧
    (ServeHTTP env s w r).1.body = EscapeString e := by
  have h1 : (ServeHTTP env s w r).1
      = reportError
          (env.ServicePage (s.lookup (requestedService r).1) (requestedService r).1 w r).1
          (some e) := by
    simp only [ServeHTTP, serve, ne_eq, hne, not_false_eq_true, if_true, hreg, if_false, herr]
  rw [h1, reportError_of_unwritten _ hw, hb]
  exact ⟨rfl, by simp [GoMap.get_set], by simp⟩

/-- C6, at the failing input: on the server of `NewServer`, a POST request whose form
does not parse is answered with status 200 and the index page, not with status 500 and
the escaped error of `ParseForm`. -/
theorem parseForm_error_not_reported :
    (ServeHTTP testEnv (NewServer 0) ResponseWriter.new badFormRequest).1.status = some 200 ∧
    (ServeHTTP testEnv (NewServer 0) ResponseWriter.new badFormRequest).1.body
      ≠ EscapeString "invalid URL escape \"%zz\"" ∧
    ServeHTTP testEnv (NewServer 0) ResponseWriter.new badFormRequest
      = ServeHTTP testEnv (NewServer 0) ResponseWriter.new (getRequest none) := by
  refine ⟨by decide, by decide, ?_⟩
  exact parseForm_error_overwritten testEnv (NewServer 0) ResponseWriter.new badFormRequest rfl
    _ rfl

/-- C7, as the spec states it, fails: for the unregistered name `a"b` the body of the
error page does not contain the HTML-escaped name `a&#34;b`, because `%q` puts a
backslash before the quote. -/
theorem unknown_name_not_in_body :
    (NewServer 0).lookup "a\"b" = Service.nil ∧
    (ServeHTTP testEnv (NewServer 0) ResponseWriter.new
        (getRequest (some ⟨"a\"b", []⟩))).1.body
      = "unknown service name &#34;a\\&#34;b&#34;" ∧
    ¬ ((EscapeString "a\"b").data <:+:
        (ServeHTTP testEnv (NewServer 0) ResponseWriter.new
          (getRequest (some ⟨"a\"b", []⟩))).1.body.data) := by
  decide

/-- C7, amended: a GET request for a non-empty name `v` without registry entry calls no
service and is answered with status 500, the HTML content type, and as body the
HTML-escaped text `unknown service name ` followed by `v` as `%q` quotes it; the body
contains the HTML-escaped `v` when `%q` leaves every character of `v` as it is (a
printable character other than the double quote and the backslash). -/
theorem unknown_name_error_page (env : Env) (s : Server) (w : ResponseWriter) (r : Request)
    (p : Params) (hget : r.Method = "GET") (hq : r.queryService = some p)
    (hne : p.first ≠ "") (hunknown : s.lookup p.first = Service.nil)
    (hw : w.status = none) (hb : w.body = "") :
    (ServeHTTP env s w r).2 = [Event.rlock, Event.runlock] ∧
    (ServeHTTP env s w r).1.status = some 500 ∧
    (ServeHTTP env s w r).1.sent.get "Content-Type" = some "text/html; charset=utf-8" ∧
    (ServeHTTP env s w r).1.body
      = EscapeString ("unknown service name " ++ Quote env.table p.first) ∧
    ((∀ c ∈ p.first.data, c ≠ '"' ∧ c ≠ '\\' ∧ IsPrint env.table c = true) →
      (EscapeString p.first).data <:+: (ServeHTTP env s w r).1.body.data) := by
  have hname : (requestedService r).1 = p.first := by
    simp [requestedService, hget, hq]
  have hserve : serve env s w r
      = (w, some ("unknown service name " ++ Quote env.table p.first), []) := by
    simp only [serve, hname, ne_eq, hne, not_false_eq_true, if_true, hunknown]
  have hbody : (ServeHTTP env s w r).1.body
      = EscapeString ("unknown service name " ++ Quote env.table p.first) := by
    simp only [ServeHTTP, hserve, reportError_of_unwritten w hw, hb, String.empty_append]
  refine ⟨?_, ?_, ?_, hbody, ?_⟩
  · simp [ServeHTTP, hserve]
  · simp only [ServeHTTP, hserve, reportError_of_unwritten w hw]
  · simp only [ServeHTTP, hserve, reportError_of_unwritten w hw, GoMap.get_set, if_true]
  · intro hplain
    rw [hbody]
    have hq' : replaceEach (quoteRune env.table) p.first = p.first :=
      replaceEach_unchanged _ _ (fun c hc =>
        quoteRune_plain env.table c (hplain c hc).1 (hplain c hc).2.1 (hplain c hc).2.2)
    simp only [Quote, hq', EscapeString, replaceEach_append, String.data_append]
    exact ⟨(replaceEach escapeRune "unknown service name ").data
      ++ (replaceEach escapeRune "\"").data, (replaceEach escapeRune "\"").data,
      by simp only [List.append_assoc]⟩

theorem unknown_name_error_page_witness :
    (NewServer 0).lookup "nosuch" = Service.nil ∧
    (ServeHTTP testEnv (NewServer 0) ResponseWriter.new
      (getRequest (some ⟨"nosuch", []⟩))).2 = [Event.rlock, Event.runlock] ∧
    (ServeHTTP testEnv (NewServer 0) ResponseWriter.new
      (getRequest (some ⟨"nosuch", []⟩))).1.status = some 500 ∧
    (ServeHTTP testEnv (NewServer 0) ResponseWriter.new
      (getRequest (some ⟨"nosuch", []⟩))).1.body
        = EscapeString ("unknown service name " ++ Quote testEnv.table "nosuch") ∧
    (EscapeString "nosuch").data <:+:
      (ServeHTTP testEnv (NewServer 0) ResponseWriter.new
        (getRequest (some ⟨"nosuch", []⟩))).1.body.data :=
  have h := unknown_name_error_page testEnv (NewServer 0) ResponseWriter.new
    (getRequest (some ⟨"nosuch", []⟩)) ⟨"nosuch", []⟩ rfl rfl (by decide) (by decide) rfl rfl
  ⟨by decide, h.1, h.2.1, h.2.2.2.1, h.2.2.2.2 (by decide)⟩

/-- C9: for a GET request without a non-empty `service` parameter on a writer nothing
was written to: if every `MainPageEntry` succeeds (the method of a service that is not
nil returns no error), the response has status 200 and its
body is the page shell for "Main", then for each service in registration order its index
entry and its fragment unescaped, then `End`, and the services are called in that order;
if `sj` is the first service whose `MainPageEntry` fails, no later service is called and
the response is the status-500 page whose body is the escaped error alone. -/
theorem index_page_body (env : Env) (s : Server) (w : ResponseWriter) (r : Request)
    (hget : r.Method = "GET") (hq : ∀ p, r.queryService = some p → p.first = "")
    (hw : w.status = none) (hb : w.body = "") :
    ((∀ svc ∈ s.orderedServices,
        svc ≠ Service.nil ∧ (env.MainPageEntry svc (s.nameOf svc)).2 = none) →
      (ServeHTTP env s w r).1.status = some 200 ∧
      (ServeHTTP env s w r).1.sent.get "Content-Type" = some "text/html; charset=utf-8" ∧
      (ServeHTTP env s w r).1.body
        = (Begin.Execute "Main").1 ++ indexEntries env s s.orderedServices ++ End ∧
      (ServeHTTP env s w r).2
        = [Event.rlock]
          ++ s.orderedServices.map (fun svc => Event.mainPageEntry svc (s.nameOf svc))
          ++ [Event.runlock]) ∧
    (∀ pre sj post e, s.orderedServices = pre ++ sj :: post →
      (∀ svc ∈ pre, svc ≠ Service.nil ∧ (env.MainPageEntry svc (s.nameOf svc)).2 = none) →
      sj ≠ Service.nil → (env.MainPageEntry sj (s.nameOf sj)).2 = some e →
      (ServeHTTP env s w r).1.status = some 500 ∧
      (ServeHTTP env s w r).1.sent.get "Content-Type" = some "text/html; charset=utf-8" ∧
      (ServeHTTP env s w r).1.body = EscapeString e ∧
      (ServeHTTP env s w r).2
        = [Event.rlock] ++ pre.map (fun svc => Event.mainPageEntry svc (s.nameOf svc))
          ++ [Event.mainPageEntry sj (s.nameOf sj)] ++ [Event.runlock]) := by
  have hname : (requestedService r).1 = "" := by
    simp only [requestedService, hget, if_true]
    cases hqs : r.queryService with
    | none => rfl
    | some p => exact hq p hqs
  have hw' : (w.setHeader "Content-Type" "text/html; charset=utf-8").status = none := hw
  have hb' : (w.setHeader "Content-Type" "text/html; charset=utf-8").body = "" := hb
  constructor
  · intro hok
    have h1 : (ServeHTTP env s w r).1
        = { header := w.header.set "Content-Type" "text/html; charset=utf-8"
            status := some 200
            sent := w.header.set "Content-Type" "text/html; charset=utf-8"
            body := (Begin.Execute "Main").1 ++ indexEntries env s s.orderedServices ++ End } := by
      simp only [ServeHTTP, serve_index_ok env s w r hname hok, reportError,
        ResponseWriter.Write_of_unwritten _ hw', hb', String.empty_append]
      rfl
    have h2 : (ServeHTTP env s w r).2
        = [Event.rlock]
          ++ s.orderedServices.map (fun svc => Event.mainPageEntry svc (s.nameOf svc))
          ++ [Event.runlock] := by
      simp only [ServeHTTP, serve_index_ok env s w r hname hok]
    rw [h1, h2]
    exact ⟨rfl, by simp [GoMap.get_set], rfl, rfl⟩
  · intro pre sj post e hsplit hok hsj hfail
    have h1 : (ServeHTTP env s w r).1
        = { header := (w.header.set "Content-Type" "text/html; charset=utf-8").set
              "Content-Type" "text/html; charset=utf-8"
            status := some 500
            sent := (w.header.set "Content-Type" "text/html; charset=utf-8").set
              "Content-Type" "text/html; charset=utf-8"
            body := EscapeString e } := by
      simp only [ServeHTTP, serve_index_fail env s w r hname pre post sj e hsplit hok hsj hfail,
        reportError_of_unwritten _ hw', hb', String.empty_append]
      rfl
    have h2 : (ServeHTTP env s w r).2
        = [Event.rlock] ++ pre.map (fun svc => Event.mainPageEntry svc (s.nameOf svc))
          ++ [Event.mainPageEntry sj (s.nameOf sj)] ++ [Event.runlock] := by
      simp only [ServeHTTP, serve_index_fail env s w r hname pre post sj e hsplit hok hsj hfail,
        List.append_assoc]
    rw [h1, h2]
    exact ⟨rfl, by simp [GoMap.get_set], rfl, rfl⟩

theorem index_page_body_witness :
    ((ServeHTTP testEnv (AddService (NewServer 0) "one" (Service.ref 1)).2 ResponseWriter.new
        (getRequest none)).1.status = some 200 ∧
      (ServeHTTP testEnv (AddService (NewServer 0) "one" (Service.ref 1)).2 ResponseWriter.new
        (getRequest none)).2
        = [Event.rlock, Event.mainPageEntry (Service.ref 0) "Base",
            Event.mainPageEntry (Service.ref 1) "one", Event.runlock]) ∧
    ((runCalls (NewServer 0) [Call.add "one" (Service.ref 1), Call.add "two" (Service.ref 2),
          Call.add "three" (Service.ref 3)]).orderedServices
        = [Service.ref 0, Service.ref 1] ++ Service.ref 2 :: [Service.ref 3] ∧
      (ServeHTTP brokenEnv
        (runCalls (NewServer 0) [Call.add "one" (Service.ref 1), Call.add "two" (Service.ref 2),
          Call.add "three" (Service.ref 3)])
        ResponseWriter.new (getRequest none)).1.status = some 500 ∧
      (ServeHTTP brokenEnv
        (runCalls (NewServer 0) [Call.add "one" (Service.ref 1), Call.add "two" (Service.ref 2),
          Call.add "three" (Service.ref 3)])
        ResponseWriter.new (getRequest none)).1.body = "service &lt;2&gt; is down" ∧
      (ServeHTTP brokenEnv
        (runCalls (NewServer 0) [Call.add "one" (Service.ref 1), Call.add "two" (Service.ref 2),
          Call.add "three" (Service.ref 3)])
        ResponseWriter.new (getRequest none)).2
        = [Event.rlock, Event.mainPageEntry (Service.ref 0) "Base",
            Event.mainPageEntry (Service.ref 1) "one", Event.mainPageEntry (Service.ref 2) "two",
            Event.runlock]) :=
  have hok := (index_page_body testEnv (AddService (NewServer 0) "one" (Service.ref 1)).2
    ResponseWriter.new (getRequest none) rfl (by decide) rfl rfl).1 (by decide)
  have hfail := (index_page_body brokenEnv
    (runCalls (NewServer 0) [Call.add "one" (Service.ref 1), Call.add "two" (Service.ref 2),
      Call.add "three" (Service.ref 3)])
    ResponseWriter.new (getRequest none) rfl (by decide) rfl rfl).2
    [Service.ref 0, Service.ref 1] (Service.ref 2) [Service.ref 3]
    "service <2> is down" (by decide) (by decide) (by decide) (by decide)
  ⟨⟨hok.1, hok.2.2.2⟩, by decide, hfail.1, hfail.2.2.1, hfail.2.2.2⟩

/-- C8: when `ServeHTTP` writes the index page (no service name requested, every
`MainPageEntry` succeeds), the page holds, for every registered service with assigned
name `n`, the link `<a href="./status?service=P(n)">H(n)</a>`, where `P(n)` is `n`
percent-encoded for a URL query (it holds only letters, digits, `-`, `.`, `_`, `~` and
`%`, and unescaping the query value gives `n` back) and `H(n)` is `n` escaped as HTML text
(it holds no `<`, `>`, `"` or `'`, and reading its character references gives `n` back,
with U+FFFD for a NUL). -/
theorem index_page_links (env : Env) (s : Server) (w : ResponseWriter) (r : Request)
    (hc : Consistent s) (hname : (requestedService r).1 = "") (hw : w.status = none)
    (hok : ∀ svc ∈ s.orderedServices,
      svc ≠ Service.nil ∧ (env.MainPageEntry svc (s.nameOf svc)).2 = none) :
    (ServeHTTP env s w r).1.status = some 200 ∧
    ∀ svc n, s.names.get svc = some n →
      ("<a href=\"./status?service=" ++ urlEscaper n ++ "\">" ++ htmlEscaper n ++ "</a>").data
        <:+: (ServeHTTP env s w r).1.body.data ∧
      queryUnescape (urlEscaper n) = some n ∧
      (∀ c ∈ (urlEscaper n).data, isQueryChar c = true) ∧
      unescapeEntities 0 (htmlEscaper n).data
        = n.data.map (fun c => if c = Char.ofNat 0 then Char.ofNat 0xFFFD else c) ∧
      (∀ d ∈ (htmlEscaper n).data, d ≠ '<' ∧ d ≠ '>' ∧ d ≠ '"' ∧ d ≠ '\'') := by
  have hw' : (w.setHeader "Content-Type" "text/html; charset=utf-8").status = none := hw
  have hres : (ServeHTTP env s w r).1
      = ((w.setHeader "Content-Type" "text/html; charset=utf-8").Write
          ((Begin.Execute "Main").1 ++ indexEntries env s s.orderedServices ++ End)).1 := by
    simp only [ServeHTTP, serve_index_ok env s w r hname hok, reportError]
  rw [hres, ResponseWriter.Write_of_unwritten _ hw']
  refine ⟨rfl, ?_⟩
  intro svc n hn
  refine ⟨?_, queryUnescape_urlEscaper n, urlEscaper_queryChars n,
    unescapeEntities_htmlEscaper n, htmlEscaper_plain n⟩
  have hmem : svc ∈ s.orderedServices := (hc.ordered svc).2 (by rw [hn]; simp)
  have hlink := indexLink_infix_indexEntries env s svc s.orderedServices hmem
  rw [Consistent.nameOf_of_get hn] at hlink
  obtain ⟨a, b, hab⟩ := hlink
  refine ⟨(w.setHeader "Content-Type" "text/html; charset=utf-8").body.data
    ++ (Begin.Execute "Main").1.data ++ a, b ++ End.data, ?_⟩
  simp only [String.data_append]
  rw [← hab]
  simp only [indexLink, String.data_append, List.append_assoc]

theorem index_page_links_witness :
    ("<a href=\"./status?service=x%3cy\">x&lt;y</a>".data <:+:
        (ServeHTTP testEnv (AddService (NewServer 0) "x<y" (Service.ref 1)).2 ResponseWriter.new
          (getRequest none)).1.body.data ∧
      queryUnescape "x%3cy" = some "x<y") ∧
    "<a href=\"./status?service=a%3cb%3ec%26d%20e\">a&lt;b&gt;c&amp;d e</a>".data <:+:
      (ServeHTTP testEnv (AddService (NewServer 0) "a<b>c&d e" (Service.ref 1)).2
        ResponseWriter.new (getRequest none)).1.body.data ∧
    "<a href=\"./status?service=caf%c3%a9%2b%22\">café&#43;&#34;</a>".data <:+:
      (ServeHTTP testEnv (AddService (NewServer 0) "café+\"" (Service.ref 1)).2
        ResponseWriter.new (getRequest none)).1.body.data :=
  ⟨⟨((index_page_links testEnv (AddService (NewServer 0) "x<y" (Service.ref 1)).2
        ResponseWriter.new (getRequest none)
        (consistent_AddService (consistent_NewServer 0) (nilFree_NewServer 0) "x<y"
          (Service.ref 1)) rfl rfl (by decide)).2 (Service.ref 1) "x<y" (by decide)).1,
     ((index_page_links testEnv (AddService (NewServer 0) "x<y" (Service.ref 1)).2
        ResponseWriter.new (getRequest none)
        (consistent_AddService (consistent_NewServer 0) (nilFree_NewServer 0) "x<y"
          (Service.ref 1)) rfl rfl (by decide)).2 (Service.ref 1) "x<y" (by decide)).2.1⟩,
   ((index_page_links testEnv (AddService (NewServer 0) "a<b>c&d e" (Service.ref 1)).2
      ResponseWriter.new (getRequest none)
      (consistent_AddService (consistent_NewServer 0) (nilFree_NewServer 0) "a<b>c&d e"
        (Service.ref 1)) rfl rfl (by decide)).2 (Service.ref 1) "a<b>c&d e" (by decide)).1,
   ((index_page_links testEnv (AddService (NewServer 0) "café+\"" (Service.ref 1)).2
      ResponseWriter.new (getRequest none)
      (consistent_AddService (consistent_NewServer 0) (nilFree_NewServer 0) "café+\""
        (Service.ref 1)) rfl rfl (by decide)).2 (Service.ref 1) "café+\"" (by decide)).1⟩

/-! ## The read lock during `ServicePage` -/

theorem lockInvariant_initial (s : Server) (call : Call) : LockInvariant (initial s call) where
  readers := rfl
  writer := by simp [initial]
  exclusive := by simp [initial, Handler.holdsReadLock]

theorem lockInvariant_stepHandler (env : Env) (w : ResponseWriter) (r : Request)
    {st st' : System} (hinv : LockInvariant st) (h : stepHandler env w r st = some st') :
    LockInvariant st' := by
  obtain ⟨hr, hwr, hex⟩ := hinv
  unfold stepHandler at h
  split at h
  · rename_i hh
    split at h
    · exact absurd h (by simp)
    · rename_i hw
      simp only [Option.some.injEq] at h
      subst h
      refine ⟨?_, ?_, ?_⟩
      · simp only [hh, Handler.holdsReadLock] at hr
        simp [Handler.holdsReadLock, hr]
      · simpa using hwr
      · simpa [Handler.holdsReadLock] using hw
  · rename_i hh
    simp only [hh, Handler.holdsReadLock] at hr hex
    split at h <;>
    · simp only [Option.some.injEq] at h
      subst h
      exact ⟨by simpa [Handler.holdsReadLock] using hr, by simpa using hwr,
        by simpa [Handler.holdsReadLock] using hex⟩
  · exact absurd h (by simp)
  · rename_i hh
    simp only [hh, Handler.holdsReadLock] at hr hex
    simp only [Option.some.injEq] at h
    subst h
    exact ⟨by simpa [Handler.holdsReadLock] using hr, by simpa using hwr,
      by simpa [Handler.holdsReadLock] using hex⟩
  · rename_i hh
    simp only [hh, Handler.holdsReadLock] at hr
    simp only [Option.some.injEq] at h
    subst h
    exact ⟨by simp [Handler.holdsReadLock, hr], by simpa using hwr,
      by simp [Handler.holdsReadLock]⟩
  · exact absurd h (by simp)

theorem lockInvariant_stepMutator {st st' : System} (hinv : LockInvariant st)
    (h : stepMutator st = some st') : LockInvariant st' := by
  obtain ⟨hr, hwr, hex⟩ := hinv
  unfold stepMutator at h
  split at h
  · rename_i call hm
    split at h
    · rename_i hfree
      simp only [Option.some.injEq] at h
      subst h
      refine ⟨by simpa using hr, by simp, ?_⟩
      have hnot : st.handler.holdsReadLock = false := by
        by_contra hc
        have hc' : st.handler.holdsReadLock = true := by simpa using hc
        rw [hc'] at hr
        simp only [if_true] at hr
        omega
      simp [hnot]
    · exact absurd h (by simp)
  · rename_i call hm
    simp only [Option.some.injEq] at h
    subst h
    exact ⟨by simpa using hr, by simp, by simp⟩
  · exact absurd h (by simp)

theorem lockInvariant_step (env : Env) (w : ResponseWriter) (r : Request) {st st' : System}
    (m : Move) (hinv : LockInvariant st) (h : step env w r st m = some st') :
    LockInvariant st' := by
  cases m with
  | handler => exact lockInvariant_stepHandler env w r hinv h
  | servicePageRuns =>
    simp only [step] at h
    split at h
    · simp only [Option.some.injEq] at h
      subst h
      exact hinv
    · exact absurd h (by simp)
  | servicePageReturns =>
    simp only [step] at h
    split at h
    · rename_i service name hh
      obtain ⟨hr, hwr, hex⟩ := hinv
      simp only [hh, Handler.holdsReadLock] at hr hex
      simp only [Option.some.injEq] at h
      subst h
      exact ⟨by simpa [Handler.holdsReadLock] using hr, by simpa using hwr,
        by simpa [Handler.holdsReadLock] using hex⟩
    · exact absurd h (by simp)
  | mutator => exact lockInvariant_stepMutator hinv h

theorem lockInvariant_run (env : Env) (w : ResponseWriter) (r : Request) (moves : List Move) :
    ∀ st : System, LockInvariant st → LockInvariant (run env w r st moves) := by
  induction moves with
  | nil => intro st h; exact h
  | cons m moves ih =>
    intro st h
    simp only [run, List.foldl_cons]
    apply ih
    cases hs : step env w r st m with
    | none => simpa using h
    | some st' => simpa using lockInvariant_step env w r m h hs

theorem run_append (env : Env) (w : ResponseWriter) (r : Request) (st : System)
    (a b : List Move) : run env w r st (a ++ b) = run env w r (run env w r st a) b := by
  simp [run, List.foldl_append]

/-- While the handler stands inside `ServicePage` the other goroutine cannot move. -/
theorem stepMutator_blocked {st : System} (hinv : LockInvariant st)
    (hheld : st.handler.holdsReadLock = true) : stepMutator st = none := by
  obtain ⟨hr, hwr, hex⟩ := hinv
  rw [hheld] at hr
  simp only [if_true] at hr
  unfold stepMutator
  split
  · simp [hr]
  · rename_i call hm
    exact absurd ⟨hheld, hwr.2 ⟨call, hm⟩⟩ hex
  · rfl

theorem run_inServicePage (env : Env) (w : ResponseWriter) (r : Request) (moves : List Move)
    (hmoves : Move.servicePageReturns ∉ moves) :
    ∀ (st : System) (svc : Service) (name : String), LockInvariant st →
      st.handler = Handler.inServicePage svc name → run env w r st moves = st := by
  induction moves with
  | nil => intro st svc name _ _; rfl
  | cons m moves ih =>
    intro st svc name hinv hh
    have hstay : (step env w r st m).getD st = st := by
      cases m with
      | handler => simp [step, stepHandler, hh]
      | servicePageRuns => simp [step, hh]
      | servicePageReturns => exact absurd (List.mem_cons_self _ _) hmoves
      | mutator =>
        have := stepMutator_blocked hinv (by simp [hh, Handler.holdsReadLock])
        simp [step, this]
    simp only [run, List.foldl_cons, hstay]
    exact ih (fun hm => hmoves (List.mem_cons_of_mem m hm)) st svc name hinv hh

/-- The handler goroutine, run alone to its end, leaves the response of `ServeHTTP`. -/
theorem run_handler_alone (env : Env) (w : ResponseWriter) (r : Request) (s : Server)
    (call : Call) :
    (run env w r (initial s call)
      [Move.handler, Move.handler, Move.servicePageReturns, Move.handler, Move.handler]).handler
      = Handler.done (ServeHTTP env s w r).1 := by
  by_cases hd : (requestedService r).1 ≠ "" ∧ s.lookup (requestedService r).1 ≠ Service.nil
  · have hs : serve env s w r
        = ((env.ServicePage (s.lookup (requestedService r).1) (requestedService r).1 w r).1,
           (env.ServicePage (s.lookup (requestedService r).1) (requestedService r).1 w r).2,
           [Event.servicePage (s.lookup (requestedService r).1) (requestedService r).1]) := by
      simp only [serve, ne_eq, hd.1, not_false_eq_true, if_true, hd.2, if_false]
    simp [run, step, stepHandler, initial, hd, ServeHTTP, hs]
  · simp [run, step, stepHandler, initial, hd, ServeHTTP]

/-- C10, as the spec states it, fails: when `ServeHTTP` has called `ServicePage` it still
holds the read lock it took before resolving the name. With a request for the service "x"
and `AddService("y", s2)` in another goroutine: after `RLock` and the dispatch the handler
stands inside `ServicePage` with one read lock held, `Lock` cannot be taken, and however
the scheduler goes on, "y" is not registered before `ServicePage` returns; it is
registered once the handler has run `RUnlock`. -/
theorem read_lock_held_during_ServicePage :
    (run testEnv ResponseWriter.new (getRequest (some ⟨"x", []⟩))
        (initial (AddService (NewServer 0) "x" (Service.ref 1)).2
          (Call.add "y" (Service.ref 2)))
        [Move.handler, Move.handler]).handler
      = Handler.inServicePage (Service.ref 1) "x" ∧
    (run testEnv ResponseWriter.new (getRequest (some ⟨"x", []⟩))
        (initial (AddService (NewServer 0) "x" (Service.ref 1)).2
          (Call.add "y" (Service.ref 2)))
        [Move.handler, Move.handler]).mutex.readers = 1 ∧
    step testEnv ResponseWriter.new (getRequest (some ⟨"x", []⟩))
        (run testEnv ResponseWriter.new (getRequest (some ⟨"x", []⟩))
          (initial (AddService (NewServer 0) "x" (Service.ref 1)).2
            (Call.add "y" (Service.ref 2)))
          [Move.handler, Move.handler])
        Move.mutator = none ∧
    (run testEnv ResponseWriter.new (getRequest (some ⟨"x", []⟩))
        (initial (AddService (NewServer 0) "x" (Service.ref 1)).2
          (Call.add "y" (Service.ref 2)))
        [Move.handler, Move.handler, Move.mutator, Move.servicePageRuns, Move.mutator,
          Move.mutator, Move.servicePageRuns, Move.mutator]).registry.lookup "y"
      = Service.nil ∧
    (run testEnv ResponseWriter.new (getRequest (some ⟨"x", []⟩))
        (initial (AddService (NewServer 0) "x" (Service.ref 1)).2
          (Call.add "y" (Service.ref 2)))
        [Move.handler, Move.handler, Move.mutator, Move.servicePageRuns, Move.mutator,
          Move.servicePageReturns, Move.handler, Move.handler, Move.mutator,
          Move.mutator]).registry.lookup "y"
      = Service.ref 2 := by
  decide

/-- C10, amended: in every schedule of the handler goroutine and a goroutine that runs
`AddService` or `RemoveService`, once `ServeHTTP` stands inside the `ServicePage` of a
service, one read lock is held and the write lock is not; the other goroutine cannot
move; and for as long as `ServicePage` has not returned, whatever moves are tried, the
whole state stays as it was at the call: the lock held, the registry unchanged, and
`AddService` or `RemoveService` where it stood. -/
theorem ServicePage_called_under_read_lock (env : Env) (w : ResponseWriter) (r : Request)
    (s : Server) (call : Call) (before during : List Move) (svc : Service) (name : String)
    (hcall : (run env w r (initial s call) before).handler = Handler.inServicePage svc name)
    (hduring : Move.servicePageReturns ∉ during) :
    (run env w r (initial s call) before).mutex.readers = 1 ∧
    (run env w r (initial s call) before).mutex.writer = false ∧
    (∀ c, (run env w r (initial s call) before).mutator ≠ Mutator.locked c) ∧
    step env w r (run env w r (initial s call) before) Move.mutator = none ∧
    run env w r (initial s call) (before ++ during) = run env w r (initial s call) before ∧
    (run env w r (initial s call) (before ++ during)).registry
      = (run env w r (initial s call) before).registry ∧
    step env w r (run env w r (initial s call) (before ++ during)) Move.mutator = none := by
  have hinv := lockInvariant_run env w r before _ (lockInvariant_initial s call)
  have hheld : (run env w r (initial s call) before).handler.holdsReadLock = true := by
    rw [hcall]
    rfl
  have hstay : run env w r (initial s call) (before ++ during)
      = run env w r (initial s call) before := by
    rw [run_append]
    exact run_inServicePage env w r during hduring _ svc name hinv hcall
  have hblocked : step env w r (run env w r (initial s call) before) Move.mutator = none :=
    stepMutator_blocked hinv hheld
  have hwriter : (run env w r (initial s call) before).mutex.writer = false := by
    cases hw : (run env w r (initial s call) before).mutex.writer with
    | false => rfl
    | true => exact absurd ⟨hheld, hw⟩ hinv.exclusive
  refine ⟨?_, hwriter, ?_, hblocked, hstay, by rw [hstay], by rw [hstay]; exact hblocked⟩
  · have := hinv.readers
    rw [hheld] at this
    simpa using this
  · intro c hc
    have := hinv.writer.2 ⟨c, hc⟩
    rw [hwriter] at this
    exact absurd this (by simp)

theorem ServicePage_called_under_read_lock_witness :
    (run testEnv ResponseWriter.new (getRequest (some ⟨"x", []⟩))
        (initial (AddService (NewServer 0) "x" (Service.ref 1)).2
          (Call.remove (Service.ref 1)))
        [Move.handler, Move.mutator, Move.handler]).handler
      = Handler.inServicePage (Service.ref 1) "x" ∧
    Move.servicePageReturns ∉ [Move.mutator, Move.servicePageRuns, Move.handler, Move.mutator] ∧
    (run testEnv ResponseWriter.new (getRequest (some ⟨"x", []⟩))
        (initial (AddService (NewServer 0) "x" (Service.ref 1)).2
          (Call.remove (Service.ref 1)))
        [Move.handler, Move.mutator, Move.handler]).mutex.readers = 1 ∧
    (run testEnv ResponseWriter.new (getRequest (some ⟨"x", []⟩))
        (initial (AddService (NewServer 0) "x" (Service.ref 1)).2
          (Call.remove (Service.ref 1)))
        ([Move.handler, Move.mutator, Move.handler]
          ++ [Move.mutator, Move.servicePageRuns, Move.handler, Move.mutator])).registry
      = (run testEnv ResponseWriter.new (getRequest (some ⟨"x", []⟩))
          (initial (AddService (NewServer 0) "x" (Service.ref 1)).2
            (Call.remove (Service.ref 1)))
          [Move.handler, Move.mutator, Move.handler]).registry :=
  have h := ServicePage_called_under_read_lock testEnv ResponseWriter.new
    (getRequest (some ⟨"x", []⟩)) (AddService (NewServer 0) "x" (Service.ref 1)).2
    (Call.remove (Service.ref 1)) [Move.handler, Move.mutator, Move.handler]
    [Move.mutator, Move.servicePageRuns, Move.handler, Move.mutator] (Service.ref 1) "x"
    (by decide) (by decide)
  ⟨by decide, by decide, h.1, h.2.2.2.2.2.1⟩

end StatusPages
